import Mathlib

/-!
# Verification of the `md_to_conf` Markdown-to-Confluence converter

A shallow embedding of the string-rewriting core of
`src/md_to_conf/converter.py` (class `MarkdownConverter`), over `List Char`.
Python strings are modelled as `List Char`; the specific regular expressions
used by the source are modelled by dedicated scanning functions whose
behaviour on the relevant inputs coincides with CPython `re` semantics
(leftmost match, non-greedy = shortest, `.` does not match a newline,
`re.DOTALL` where the source passes it).  Character-class escapes (`\s`,
`\d`, `[a-z]`) are modelled on the ASCII range, matching every input
exercised here.
-/

set_option maxRecDepth 100000

namespace MdToConf

/-- Characters of a Python string literal. -/
def lc (s : String) : List Char := s.data

/-- Python `str.isspace` members relevant to `strip()` / `\s` (ASCII). -/
def isPySpace (c : Char) : Bool :=
  c == ' ' || c == '\t' || c == '\n' || c == '\r' || c == '\x0b' || c == '\x0c'

/-- Python `str.lower` on the ASCII range (identity elsewhere). -/
def lowerChar (c : Char) : Char :=
  if 'A' ≤ c ∧ c ≤ 'Z' then Char.ofNat (c.toNat + 32) else c

/-- Python `str.upper` on the ASCII range (identity elsewhere). -/
def upperChar (c : Char) : Char :=
  if 'a' ≤ c ∧ c ≤ 'z' then Char.ofNat (c.toNat - 32) else c

def lowerL (l : List Char) : List Char := l.map lowerChar

def upperL (l : List Char) : List Char := l.map upperChar

/-- `isPre pat s`: `s` starts with `pat`. -/
def isPre : List Char → List Char → Bool
  | [], _ => true
  | _ :: _, [] => false
  | p :: ps, c :: cs => p == c && isPre ps cs

/-- Case-insensitive version of `isPre` (models `re.IGNORECASE` literals). -/
def isPreCI : List Char → List Char → Bool
  | [], _ => true
  | _ :: _, [] => false
  | p :: ps, c :: cs => lowerChar p == lowerChar c && isPreCI ps cs

/-- Index of the first occurrence of `pat` in `hay` (substring search). -/
def firstOcc : List Char → List Char → Option Nat
  | [], pat => if pat.isEmpty then some 0 else none
  | c :: t, pat => if isPre pat (c :: t) then some 0 else (firstOcc t pat).map (· + 1)

def containsSub (hay pat : List Char) : Bool := (firstOcc hay pat).isSome

/-- Index of the last occurrence of `pat` in `hay`. -/
def lastOcc (hay pat : List Char) : Option Nat :=
  match hay with
  | [] => if pat.isEmpty then some 0 else none
  | c :: t =>
    match lastOcc t pat with
    | some k => some (k + 1)
    | none => if isPre pat (c :: t) then some 0 else none

/-- Fueled worker for `replaceAll`. -/
def replF : Nat → List Char → List Char → List Char → List Char
  | 0, hay, _, _ => hay
  | _ + 1, [], _, _ => []
  | n + 1, c :: t, pat, rep =>
    if !pat.isEmpty && isPre pat (c :: t) then
      rep ++ replF n (List.drop (pat.length - 1) t) pat rep
    else
      c :: replF n t pat rep

/-- Python `str.replace(pat, rep)`: every non-overlapping occurrence,
left to right.  (Our patterns are never empty; for an empty pattern this
model returns the string unchanged.) -/
def replaceAll (hay pat rep : List Char) : List Char := replF hay.length hay pat rep

/-- Python `str.strip()` (whitespace both ends). -/
def pyLStrip (l : List Char) : List Char := l.dropWhile isPySpace

def pyRStrip (l : List Char) : List Char := (l.reverse.dropWhile isPySpace).reverse

def pyStrip (l : List Char) : List Char := pyLStrip (pyRStrip l)

/-- Decimal digits of `n`. -/
def natDigits (n : Nat) : List Char := Nat.toDigits 10 n

/-- Python `pattern % n` for patterns holding a single `%d` or `%s`. -/
def pyFormat : List Char → Nat → List Char
  | [], _ => []
  | '%' :: 'd' :: rest, n => natDigits n ++ rest
  | '%' :: 's' :: rest, n => natDigits n ++ rest
  | c :: rest, n => c :: pyFormat rest n

/-- Fueled worker for `pySplitWs`. -/
def pySplitWsF : Nat → List Char → List (List Char)
  | 0, _ => []
  | _ + 1, [] => []
  | n + 1, c :: t =>
    if isPySpace c then pySplitWsF n t
    else
      (c :: t).takeWhile (fun d => !isPySpace d) ::
        pySplitWsF n (List.dropWhile (fun d => !isPySpace d) t)

/-- Python `title.split()`: split on whitespace runs, dropping empties. -/
def pySplitWs (l : List Char) : List (List Char) := pySplitWsF l.length l

def joinPlus (ws : List (List Char)) : List Char :=
  match ws with
  | [] => []
  | [w] => w
  | w :: rest => w ++ '+' :: joinPlus rest

/-! ## Association lists modelling Python dicts (insertion-ordered) -/

/-- Lookup in an insertion-ordered association list (Python `dict.get`). -/
def aGet {β : Type} (d : List (List Char × β)) (k : List Char) : Option β :=
  (d.find? (fun p => p.1 == k)).map (·.2)

def aMem {β : Type} (d : List (List Char × β)) (k : List Char) : Bool :=
  (aGet d k).isSome

/-- Python `d[k] = v`: update in place if present, else append. -/
def aSet {β : Type} (d : List (List Char × β)) (k : List Char) (v : β) :
    List (List Char × β) :=
  if aMem d k then d.map (fun p => if p.1 == k then (p.1, v) else p)
  else d ++ [(k, v)]

/-! ## `MarkdownConverter.slug` (converter.py lines 492-517) -/

/-- One step of `re.sub(r"<[^>]+>", "", s)`: at a `<`, the class `[^>]+`
greedily runs to the next `>` (at least one character in between). -/
def stripTagsF : Nat → List Char → List Char
  | 0, l => l
  | _ + 1, [] => []
  | n + 1, c :: t =>
    if c == '<' then
      match firstOcc t ['>'] with
      | some k => if k ≥ 1 then stripTagsF n (t.drop (k + 1)) else c :: stripTagsF n t
      | none => c :: stripTagsF n t
    else c :: stripTagsF n t

/-- `re.sub(r"<[^>]+>", "", s)`. -/
def stripTags (l : List Char) : List Char := stripTagsF l.length l

def isLowerAZ (c : Char) : Bool := 'a' ≤ c && c ≤ 'z'

/-- `re.sub(r"&[a-z]+;", "", s)`: an `&`, a maximal nonempty run of
ASCII lowercase letters, then a `;` immediately after. -/
def stripEntsF : Nat → List Char → List Char
  | 0, l => l
  | _ + 1, [] => []
  | n + 1, c :: t =>
    if c == '&' then
      let run := t.takeWhile isLowerAZ
      if !run.isEmpty && isPre [';'] (t.drop run.length) then
        stripEntsF n (t.drop (run.length + 1))
      else c :: stripEntsF n t
    else c :: stripEntsF n t

def stripEnts (l : List Char) : List Char := stripEntsF l.length l

/-- `str.replace(slug_string, " ", "-")`. -/
def spacesToDash (l : List Char) : List Char :=
  l.map (fun c => if c == ' ' then '-' else c)

/-- The class `[a-zA-Z0-9-]` of `slug`'s final `re.sub`. -/
def isSlugChar (c : Char) : Bool :=
  ('a' ≤ c && c ≤ 'z') || ('A' ≤ c && c ≤ 'Z') || ('0' ≤ c && c ≤ '9') || c == '-'

/-- `MarkdownConverter.slug(string, lowercase)`. -/
def slugF (string : List Char) (lowercase : Bool) : List Char :=
  let s0 := if lowercase then lowerL string else string
  let s1 := stripTags s0
  let s2 := stripEnts s1
  let s3 := spacesToDash s2
  s3.filter isSlugChar

/-! ## `MarkdownConverter.process_headers` (converter.py lines 519-543) -/

/-- `re.sub(r"(<.+>| )", "", header)` of the editor-version-1 branch:
at a `<`, the greedy `.+` (which cannot cross a newline) runs to the last
`>` on the line, at distance at least 2; a bare space is removed. -/
def v1ValueF : Nat → List Char → List Char
  | 0, l => l
  | _ + 1, [] => []
  | n + 1, c :: t =>
    if c == '<' then
      let seg := t.takeWhile (fun d => d != '\n')
      match lastOcc seg ['>'] with
      | some j => if j ≥ 1 then v1ValueF n (t.drop (j + 1)) else c :: v1ValueF n t
      | none => c :: v1ValueF n t
    else if c == ' ' then v1ValueF n t
    else c :: v1ValueF n t

def v1Value (l : List Char) : List Char := v1ValueF l.length l

/-- The display value of a header: `value` is assigned only when
`editor_version` is 1 or 2; otherwise its use raises `NameError`. -/
def evValue (ev : Nat) (header : List Char) : Option (List Char) :=
  if ev = 1 then some (v1Value header)
  else if ev = 2 then some (slugF header false)
  else none

/-- One loop iteration of `process_headers`.  `none` models an uncaught
exception: the `NameError` on `value` when `editor_version` is not 1 or 2,
or the `KeyError` on `headers_count[key]` when `key` is in `headers_map`
but was only ever inserted as an alternate key. -/
def phStep (ev : Nat) (pre pf : List Char)
    (st : List (List Char × List Char) × List (List Char × Nat))
    (header : List Char) :
    Option (List (List Char × List Char) × List (List Char × Nat)) :=
  let key := pre ++ slugF header true
  match evValue ev header with
  | none => none
  | some value =>
    if aMem st.1 key then
      match aGet st.2 key with
      | none => none
      | some altCount =>
        some (aSet st.1 (key ++ pyFormat pf altCount)
                (value ++ '.' :: natDigits altCount),
              aSet st.2 key (altCount + 1))
    else
      some (st.1 ++ [(key, value)], st.2 ++ [(key, 1)])

def phFold (ev : Nat) (pre pf : List Char)
    (st : List (List Char × List Char) × List (List Char × Nat)) :
    List (List Char) →
    Option (List (List Char × List Char) × List (List Char × Nat))
  | [] => some st
  | h :: hs =>
    match phStep ev pre pf st h with
    | none => none
    | some st2 => phFold ev pre pf st2 hs

/-- `MarkdownConverter.process_headers(ref_prefix, ref_postfix, headers)`
at editor version `ev`; returns the final `headers_map`. -/
def processHeaders (ev : Nat) (pre pf : List Char) (headers : List (List Char)) :
    Option (List (List Char × List Char)) :=
  (phFold ev pre pf ([], []) headers).map (·.1)

/-! ## `MarkdownConverter.process_links` (converter.py lines 545-580) -/

/-- Match of `re.search(r'<a href="(#.+?)">(.+?)</a>', link)` at the head of
`s`: the non-greedy groups stop at the first following `">` resp. `</a>`,
each group nonempty and free of newlines (`.` does not match `\n`). -/
def matchLinkAt (s : List Char) : Option (List Char × List Char) :=
  if isPre (lc "<a href=\"") s then
    match s.drop 9 with
    | '#' :: r2 =>
      match (firstOcc (r2.drop 1) (lc "\">")).map (· + 1) with
      | none => none
      | some k =>
        if (r2.take k).contains '\n' then none
        else
          let ref := '#' :: r2.take k
          let after := r2.drop (k + 2)
          match (firstOcc (after.drop 1) (lc "</a>")).map (· + 1) with
          | none => none
          | some m =>
            if (after.take m).contains '\n' then none
            else some (ref, after.take m)
    | _ => none
  else none

def parseLinkF : Nat → List Char → Option (List Char × List Char)
  | 0, _ => none
  | _ + 1, [] => none
  | n + 1, c :: t =>
    match matchLinkAt (c :: t) with
    | some r => some r
    | none => parseLinkF n t

/-- Leftmost match of the link regex in `link`. -/
def parseLinkTag (link : List Char) : Option (List Char × List Char) :=
  parseLinkF link.length link

/-- `re.sub(r"( *<.+> *)", " ", alt)` used for editor-version-1 link bodies:
optional spaces, a greedy same-line `<.+>`, optional trailing spaces,
replaced by a single space. -/
def v1AltF : Nat → List Char → List Char
  | 0, l => l
  | _ + 1, [] => []
  | n + 1, c :: t =>
    let sp := (c :: t).takeWhile (fun d => d == ' ')
    match (c :: t).drop sp.length with
    | '<' :: t2 =>
      let seg := t2.takeWhile (fun d => d != '\n')
      match lastOcc seg ['>'] with
      | some j =>
        if j ≥ 1 then
          let rest := t2.drop (j + 1)
          ' ' :: v1AltF n (rest.drop ((rest.takeWhile (fun d => d == ' ')).length))
        else c :: v1AltF n t
      | none => c :: v1AltF n t
    | _ => c :: v1AltF n t

def v1Alt (l : List Char) : List Char := v1AltF l.length l

/-- The `replacement` built for a resolved link; `none` models the
`NameError` when `editor_version` is neither 1 nor 2. -/
def linkReplacement (ev : Nat) (api space : List Char) (pid : Nat)
    (title anchor alt : List Char) : Option (List Char) :=
  let baseUri := api ++ lc "/spaces/" ++ space ++ lc "/pages/" ++ natDigits pid ++
    lc "/" ++ joinPlus (pySplitWs title)
  if ev = 1 then
    some (lc "<ac:link ac:anchor=\"" ++ anchor ++
      lc "\"><ac:plain-text-link-body><![CDATA[" ++ v1Alt alt ++
      lc "]]></ac:plain-text-link-body></ac:link>")
  else if ev = 2 then
    some (lc "<a href=\"" ++ baseUri ++ lc "#" ++ anchor ++ lc "\" title=\"" ++
      alt ++ lc "\">" ++ alt ++ lc "</a>")
  else none

/-- One iteration of the `process_links` loop. `none` models an uncaught
exception (`AttributeError` when the link fails to parse, `NameError` when
the editor version is unsupported and the lookup was truthy). -/
def plStep (ev : Nat) (api space : List Char) (pid : Nat) (title : List Char)
    (hm : List (List Char × List Char)) (html link : List Char) :
    Option (List Char) :=
  match parseLinkTag link with
  | none => none
  | some (ref, alt) =>
    match aGet hm ref with
    | some v =>
      if v.isEmpty then some html
      else
        match linkReplacement ev api space pid title v alt with
        | none => none
        | some rep => some (replaceAll html link rep)
    | none => some html

def plFold (ev : Nat) (api space : List Char) (pid : Nat) (title : List Char)
    (hm : List (List Char × List Char)) (html : List Char) :
    List (List Char) → Option (List Char)
  | [] => some html
  | l :: ls =>
    match plStep ev api space pid title hm html l with
    | none => none
    | some h2 => plFold ev api space pid title hm h2 ls

/-- `MarkdownConverter.process_links(html, links, headers_map, space_key,
page_id, title)` at editor version `ev` and API url `api`. -/
def processLinks (ev : Nat) (api space : List Char) (pid : Nat)
    (title : List Char) (hm : List (List Char × List Char))
    (html : List Char) (links : List (List Char)) : Option (List Char) :=
  plFold ev api space pid title hm html links

/-! ## `MarkdownConverter.process_refs` (converter.py lines 582-612) -/

def takeLine (l : List Char) : List Char := l.takeWhile (fun c => c != '\n')

/-- Match of `\n(\[\^(\d)\].*)|<p>(\[\^(\d)\].*)` at the head of `s`:
the Boolean records which branch fired, the list is the captured group
(footnote marker through end of line), the char is the single digit.
`\d` is modelled on ASCII digits. -/
def refMatchAt (s : List Char) : Option (Bool × List Char × Char) :=
  match s with
  | '\n' :: '[' :: '^' :: d :: ']' :: rest =>
    if d.isDigit then some (true, '[' :: '^' :: d :: ']' :: takeLine rest, d) else none
  | '<' :: 'p' :: '>' :: '[' :: '^' :: d :: ']' :: rest =>
    if d.isDigit then some (false, '[' :: '^' :: d :: ']' :: takeLine rest, d) else none
  | _ => none

def findRefsF : Nat → List Char → List (Bool × List Char × Char)
  | 0, _ => []
  | _ + 1, [] => []
  | n + 1, c :: t =>
    match refMatchAt (c :: t) with
    | some r =>
      r :: findRefsF n ((c :: t).drop ((if r.1 then 1 else 3) + r.2.1.length))
    | none => findRefsF n t

/-- `re.findall` over the footnote-definition pattern. -/
def findRefs (l : List Char) : List (Bool × List Char × Char) := findRefsF l.length l

/-- `full_ref.replace("</p>", "").replace("<p>", "")`. -/
def repPTags (l : List Char) : List Char :=
  replaceAll (replaceAll l (lc "</p>") []) (lc "<p>") []

/-- The `full_ref` finally used: the newline branch applies `repPTags`
twice (converter.py lines 596 and 602), the paragraph branch once. -/
def cleanRef (r : Bool × List Char × Char) : List Char :=
  if r.1 then repPTags (repPTags r.2.1) else repPTags r.2.1

/-- `re.search('href="(.*?)"', full_ref)`: the first `href="`, then the
non-greedy capture up to the next `"`. -/
def hrefOf (fullRef : List Char) : Option (List Char) :=
  match firstOcc fullRef (lc "href=\"") with
  | none => none
  | some i =>
    let after := fullRef.drop (i + 6)
    match firstOcc after ['"'] with
    | none => none
    | some k => some (after.take k)

def supOf (href : List Char) (d : Char) : List Char :=
  lc "<a id=\"test\" href=\"" ++ href ++ lc "\"><sup>" ++ [d] ++ lc "</sup></a>"

/-- One iteration of the `process_refs` loop; the definition text is removed
before the `href` search, and a missing `href` raises (`none`). -/
def prStep (html : List Char) (r : Bool × List Char × Char) : Option (List Char) :=
  let fullRef := cleanRef r
  let html2 := replaceAll html fullRef []
  match hrefOf fullRef with
  | none => none
  | some h =>
    some (replaceAll html2 ('[' :: '^' :: r.2.2 :: [']']) (supOf h r.2.2))

def prFold (html : List Char) : List (Bool × List Char × Char) → Option (List Char)
  | [] => some html
  | r :: rs =>
    match prStep html r with
    | none => none
    | some h2 => prFold h2 rs

/-- `MarkdownConverter.process_refs(html)`; `none` models the uncaught
`AttributeError` on a definition without an extractable link. -/
def processRefs (html : List Char) : Option (List Char) :=
  prFold html (findRefs html)

/-! ## GitHub alerts (converter.py lines 197-341) -/

/-- The macro tag literals of `_get_alert_macro_tags`. -/
def gInfoTag : List Char := lc "<p><ac:structured-macro ac:name=\"info\"><ac:rich-text-body>"

def gTipTag : List Char := lc "<p><ac:structured-macro ac:name=\"tip\"><ac:rich-text-body>"

def gWarnTag : List Char := lc "<p><ac:structured-macro ac:name=\"note\"><ac:rich-text-body>"

def gErrTag : List Char := lc "<p><ac:structured-macro ac:name=\"warning\"><ac:rich-text-body>"

def gClose : List Char := lc "</ac:rich-text-body></ac:structured-macro></p>"

def adfOpenG : List Char :=
  lc "<ac:adf-extension><ac:adf-node type=\"panel\"><ac:adf-attribute key=\"panel-type\">note</ac:adf-attribute><ac:adf-content>"

def adfCloseG : List Char := lc "</ac:adf-content></ac:adf-node></ac:adf-extension>"

/-- `alert_mapping.get(alert_type)`. -/
def alertTags (ty : List Char) : Option (List Char × List Char) :=
  if ty = lc "NOTE" then some (gInfoTag, gClose)
  else if ty = lc "TIP" then some (gTipTag, gClose)
  else if ty = lc "IMPORTANT" then some (adfOpenG, adfCloseG)
  else if ty = lc "WARNING" then some (gWarnTag, gClose)
  else if ty = lc "CAUTION" then some (gErrTag, gClose)
  else none

/-- The alternation of `re.search(r"<p>\[!(NOTE|TIP|IMPORTANT|WARNING|CAUTION)\]",
quote, re.IGNORECASE)`, tried in pattern order. -/
def alertTypes : List (List Char) :=
  [lc "NOTE", lc "TIP", lc "IMPORTANT", lc "WARNING", lc "CAUTION"]

def tryTypes : List (List Char) → List Char → Option (List Char × List Char)
  | [], _ => none
  | ty :: tys, s =>
    if isPreCI (lc "<p>[!" ++ ty ++ [']']) s then
      some ((s.drop 5).take ty.length, s.drop (5 + ty.length + 1))
    else tryTypes tys s

/-- Leftmost match of the alert-declaration regex: returns the raw captured
type text and the remainder of the quote after the match. -/
def alertScan : List Char → Option (List Char × List Char)
  | [] => none
  | c :: t =>
    match tryTypes alertTypes (c :: t) with
    | some r => some r
    | none => alertScan t

structure AlertInfo where
  ty : List Char
  first : List Char
  rest : List Char
deriving DecidableEq

/-- `MarkdownConverter._parse_github_alert(quote)`. -/
def parseAlert (quote : List Char) : Option AlertInfo :=
  if isPre (lc "<p>[!") (pyStrip quote) then
    match alertScan quote with
    | none => none
    | some (tyRaw, rest) =>
      match firstOcc rest (lc "</p>") with
      | none => none
      | some k =>
        some ⟨upperL tyRaw, pyStrip (rest.take k), pyStrip (rest.drop (k + 4))⟩
  else none

/-- `MarkdownConverter._build_alert_content`. -/
def buildAlertContent (first rest : List Char) : List Char :=
  let parts :=
    (if first.isEmpty then [] else lc "<p>" ++ first ++ lc "</p>") ++
    (if rest.isEmpty then [] else rest)
  if parts.isEmpty then lc "<p></p>" else parts

/-- `MarkdownConverter._create_alert_macro`. -/
def createAlertMacro (i : AlertInfo) : Option (List Char) :=
  match alertTags i.ty with
  | none => none
  | some (o, c) => some (o ++ buildAlertContent i.first i.rest ++ c)

/-- One match of `<blockquote>(.*?)</blockquote>`: the captured group and
the remainder after the full match. -/
def bqStep (html : List Char) : Option (List Char × List Char) :=
  match firstOcc html (lc "<blockquote>") with
  | none => none
  | some i =>
    match firstOcc (html.drop (i + 12)) (lc "</blockquote>") with
    | none => none
    | some k => some ((html.drop (i + 12)).take k, (html.drop (i + 12)).drop (k + 13))

/-- `re.findall(r"<blockquote>(.*?)</blockquote>", html, re.DOTALL)`. -/
def findBQsF : Nat → List Char → List (List Char)
  | 0, _ => []
  | n + 1, html =>
    match bqStep html with
    | none => []
    | some (q, rest2) => q :: findBQsF n rest2

def findBQs (html : List Char) : List (List Char) := findBQsF html.length html

/-- `MarkdownConverter.convert_github_alerts(html)`. -/
def convertGithubAlerts (html : List Char) : List Char :=
  (findBQs html).foldl
    (fun h quote =>
      match parseAlert quote with
      | none => h
      | some info =>
        match createAlertMacro info with
        | none => h
        | some m => replaceAll h (lc "<blockquote>" ++ quote ++ lc "</blockquote>") m)
    html

/-! ## `MarkdownConverter.convert_info_macros` (converter.py lines 342-425)
and `strip_type` (lines 455-475) -/

def infoTagP : List Char :=
  lc "<p><ac:structured-macro ac:name=\"info\"><ac:rich-text-body><p>"

/-- `info_tag.replace("info", "note")` and friends, exactly as in the source. -/
def warnTagP : List Char := replaceAll infoTagP (lc "info") (lc "note")

def succTagP : List Char := replaceAll infoTagP (lc "info") (lc "tip")

def errTagP : List Char := replaceAll infoTagP (lc "info") (lc "warning")

def closeTagP : List Char := lc "</p></ac:rich-text-body></ac:structured-macro></p>"

def adfOpenP : List Char :=
  lc "<ac:adf-extension><ac:adf-node type=\"panel\"><ac:adf-attribute key=\"panel-type\">note</ac:adf-attribute><ac:adf-content><p>"

def adfCloseP : List Char := lc "</p></ac:adf-content></ac:adf-node></ac:adf-extension>"

/-- Scan for `re.search("^<.*>TY", s, re.IGNORECASE)` after the initial `<`:
some `>` (the `.*` may hold anything but a newline, including other `>`)
followed case-insensitively by `ty`. -/
def gtScan (ty : List Char) : List Char → Bool
  | [] => false
  | c :: t =>
    if c == '>' && isPreCI ty t then true
    else if c == '\n' then false
    else gtScan ty t

def tagTySearch (ty s : List Char) : Bool :=
  match s with
  | '<' :: t => gtScan ty t
  | _ => false

/-- Token shapes of the eight `strip_type` patterns. -/
inductive RTok where
  | lit : List Char → RTok
  | ws : RTok
  | tagN : RTok
  | emOrStrong : RTok

/-- Remainders after each candidate `>` for the non-greedy `<.*?>`,
nearest first, not crossing a newline. -/
def gtRems : List Char → List (List Char)
  | [] => []
  | c :: cs =>
    if c == '\n' then []
    else if c == '>' then cs :: gtRems cs
    else gtRems cs

def candsOf : RTok → List Char → List (List Char)
  | .lit l, s => if isPre l s then [s.drop l.length] else []
  | .ws, [] => []
  | .ws, c :: cs => if isPySpace c then [cs] else []
  | .tagN, '<' :: t => gtRems t
  | .tagN, _ => []
  | .emOrStrong, s =>
    (if isPre (lc "<em>") s then [s.drop 4] else []) ++
      (if isPre (lc "<strong>") s then [s.drop 8] else [])

/-- Backtracking matcher for a token sequence (fuel = token count + 1). -/
def mtF : Nat → List RTok → List Char → Option (List Char)
  | 0, _, _ => none
  | _ + 1, [], s => some s
  | n + 1, t :: ts, s =>
    ((candsOf t s).map (fun r => mtF n ts r)).foldl
      (fun a b => if a.isSome then a else b) none

def matchToks (ts : List RTok) (s : List Char) : Option (List Char) :=
  mtF (ts.length + 1) ts s

/-- `re.sub(pattern, "", hay, cnt)` for a token pattern: leftmost,
non-overlapping, at most `cnt` replacements (the source passes
`re.IGNORECASE = 2` positionally, i.e. as the count). -/
def subTF : Nat → List RTok → Nat → List Char → List Char
  | 0, _, _, hay => hay
  | _ + 1, _, _, [] => []
  | n + 1, toks, cnt, c :: t =>
    if cnt = 0 then c :: t
    else
      match matchToks toks (c :: t) with
      | some r => subTF n toks (cnt - 1) r
      | none => c :: subTF n toks cnt t

def subT (toks : List RTok) (cnt : Nat) (hay : List Char) : List Char :=
  subTF hay.length toks cnt hay

/-- End index of `re.search("<[^>]*>", tag)`: first `<`, then the next `>`. -/
def firstTagEnd (l : List Char) : Option Nat :=
  match firstOcc l ['<'] with
  | none => none
  | some i =>
    match firstOcc (l.drop (i + 1)) ['>'] with
    | none => none
    | some k => some (i + 1 + k + 1)

/-- `upper_chars(string, [i])`. -/
def upperAt : List Char → Nat → List Char
  | [], _ => []
  | c :: t, 0 => upperChar c :: t
  | c :: t, n + 1 => c :: upperAt t n

/-- `MarkdownConverter.strip_type(tag, tagtype)` for `T = tagtype`; the eight
case-sensitive substitutions (count 2 each), then the uppercase fix-up.
`none` models the `AttributeError` when no `<...>` tag remains. -/
def stripTypeF (T tag : List Char) : Option (List Char) :=
  let t1 := subT [.lit (T ++ [':']), .ws] 2 (pyStrip tag)
  let t2 := subT [.lit T, .ws, .lit [':'], .ws] 2 (pyStrip t1)
  let t3 := subT [.tagN, .lit (T ++ [':']), .ws, .tagN] 2 t2
  let t4 := subT [.tagN, .lit T, .ws, .lit [':'], .ws, .tagN] 2 t3
  let t5 := subT [.emOrStrong, .lit (T ++ [':']), .tagN, .ws] 2 t4
  let t6 := subT [.emOrStrong, .lit T, .ws, .lit [':'], .tagN, .ws] 2 t5
  let t7 := subT [.emOrStrong, .lit T, .tagN, .lit [':'], .ws] 2 t6
  let t8 := subT [.emOrStrong, .lit T, .ws, .tagN, .lit [':'], .ws] 2 t7
  match firstTagEnd t8 with
  | none => none
  | some e => some (upperAt t8 e)

/-- The `macro_tag` computed for one blockquote by the heuristic pass. -/
def heurMacroTag (quote : List Char) : Option (List Char) :=
  let q := pyStrip quote
  if tagTySearch (lc "Note") q then
    (stripTypeF (lc "Note") quote).map
      (fun ct => pyStrip (replaceAll (replaceAll ct (lc "<p>") adfOpenP) (lc "</p>") adfCloseP))
  else if tagTySearch (lc "Warning") q then
    (stripTypeF (lc "Warning") quote).map
      (fun ct => pyStrip (replaceAll (replaceAll ct (lc "<p>") warnTagP) (lc "</p>") closeTagP))
  else if tagTySearch (lc "Success") q then
    (stripTypeF (lc "Success") quote).map
      (fun ct => pyStrip (replaceAll (replaceAll ct (lc "<p>") succTagP) (lc "</p>") closeTagP))
  else if tagTySearch (lc "Error") q then
    (stripTypeF (lc "Error") quote).map
      (fun ct => pyStrip (replaceAll (replaceAll ct (lc "<p>") errTagP) (lc "</p>") closeTagP))
  else
    some (pyStrip (replaceAll (replaceAll quote (lc "<p>") infoTagP) (lc "</p>") closeTagP))

def infoFold : List Char → List (List Char) → Option (List Char)
  | html, [] => some html
  | html, q :: qs =>
    match heurMacroTag q with
    | none => none
    | some mt =>
      infoFold (replaceAll html (lc "<blockquote>" ++ q ++ lc "</blockquote>") mt) qs

def docOpen : List Char := lc "<!-- START doctoc"

def docClose : List Char := lc "END doctoc -->"

def docTocTag : List Char :=
  lc "<p>\n        <ac:structured-macro ac:name=\"toc\">\n        <ac:parameter ac:name=\"printable\">true</ac:parameter>\n        <ac:parameter ac:name=\"style\">disc</ac:parameter>\n        <ac:parameter ac:name=\"maxLevel\">7</ac:parameter>\n        <ac:parameter ac:name=\"minLevel\">1</ac:parameter>\n        <ac:parameter ac:name=\"type\">list</ac:parameter>\n        <ac:parameter ac:name=\"outline\">clear</ac:parameter>\n        <ac:parameter ac:name=\"include\">.*</ac:parameter>\n        </ac:structured-macro>\n        </p>"

/-- `MarkdownConverter.convert_doctoc(html)`: `.*` is greedy under
`re.DOTALL`, so the span runs from the first opener to the last closer. -/
def convertDoctoc (html : List Char) : List Char :=
  match firstOcc html docOpen with
  | none => html
  | some i =>
    let after := html.drop (i + docOpen.length)
    match lastOcc after docClose with
    | none => html
    | some j => html.take i ++ docTocTag ++ after.drop (j + docClose.length)

/-- The five custom-delimiter substitution pairs of `convert_info_macros`
(converter.py lines 368-374), in source order. -/
def customSubs (h : List Char) : List Char :=
  replaceAll (replaceAll (replaceAll (replaceAll (replaceAll (replaceAll
    (replaceAll (replaceAll (replaceAll (replaceAll h
      (lc "<p>~?") infoTagP) (lc "?~</p>") closeTagP)
      (lc "<p>~%") warnTagP) (lc "%~</p>") closeTagP)
      (lc "<p>~^") succTagP) (lc "^~</p>") closeTagP)
      (lc "<p>~$") errTagP) (lc "$~</p>") closeTagP)
      (lc "<p>~!") adfOpenP) (lc "!~</p>") adfCloseP

/-- `MarkdownConverter.convert_info_macros(html)`; `none` models an
uncaught exception inside `strip_type`. -/
def convertInfoMacros (html : List Char) : Option (List Char) :=
  match infoFold (customSubs (convertGithubAlerts html))
      (findBQs (customSubs (convertGithubAlerts html))) with
  | none => none
  | some h6 => some (convertDoctoc h6)

/-! ## Remaining passes and the full pipeline (converter.py lines 33-195, 614-647) -/

/-- `MarkdownConverter.convert_comment_block(html)`. -/
def convertCommentBlock (html : List Char) : List Char :=
  replaceAll (replaceAll html (lc "<!--") (lc "<ac:placeholder>"))
    (lc "-->") (lc "</ac:placeholder>")

def tocZoneTag : List Char :=
  lc "<p><ac:structured-macro ac:name=\"toc-zone\" ac:schema-version=\"1\" data-layout=\"default\"><ac:rich-text-body><ac:structured-macro ac:name=\"toc\" ac:schema-version=\"1\" data-layout=\"default\"/></ac:rich-text-body></ac:structured-macro></p>"

/-- `MarkdownConverter.create_table_of_content(html)`. -/
def createTableOfContent (html : List Char) : List Char :=
  replaceAll html (lc "<p>[TOC]</p>") tocZoneTag

/-- `re.findall(r"<pre><code.*?>.*?</code></pre>", html, re.DOTALL)`. -/
def findCodeBlocksF : Nat → List Char → List (List Char)
  | 0, _ => []
  | n + 1, html =>
    match firstOcc html (lc "<pre><code") with
    | none => []
    | some i =>
      let r1 := html.drop (i + 10)
      match firstOcc r1 ['>'] with
      | none => []
      | some g =>
        let r2 := r1.drop (g + 1)
        match firstOcc r2 (lc "</code></pre>") with
        | none => []
        | some m =>
          (lc "<pre><code" ++ r1.take (g + 1) ++ r2.take m ++ lc "</code></pre>") ::
            findCodeBlocksF n (r2.drop (m + 13))

def findCodeBlocks (html : List Char) : List (List Char) :=
  findCodeBlocksF html.length html

/-- `re.search('code class="language-(.*)"', tag)`: the greedy group runs to
the last `"` on the line of the first literal occurrence.  (CPython would go
on to try later lines when that line has no closing quote; no input
exercised here has that shape.) -/
def codeLang (tag : List Char) : List Char :=
  match firstOcc tag (lc "code class=\"language-") with
  | none => lc "none"
  | some i =>
    let seg := takeLine (tag.drop (i + (lc "code class=\"language-").length))
    match lastOcc seg ['"'] with
    | none => lc "none"
    | some j => seg.take j

/-- Group 1 of `re.search(r"<pre><code.*?>(.*?)</code></pre>", tag, re.DOTALL)`;
`none` models the `AttributeError` when `tag` does not match. -/
def codeContent (tag : List Char) : Option (List Char) :=
  match firstOcc tag (lc "<pre><code") with
  | none => none
  | some i =>
    let r1 := tag.drop (i + 10)
    match firstOcc r1 ['>'] with
    | none => none
    | some g =>
      let r2 := r1.drop (g + 1)
      match firstOcc r2 (lc "</code></pre>") with
      | none => none
      | some m => some (r2.take m)

/-- The four HTML-unescape replacements, in source order. -/
def unescapeHtml (l : List Char) : List Char :=
  replaceAll (replaceAll (replaceAll (replaceAll l
    (lc "&lt;") ['<']) (lc "&gt;") ['>']) (lc "&quot;") ['"']) (lc "&amp;") ['&']

/-- The `conf_ml` replacement built for one code block. -/
def codeReplacement (tag : List Char) : Option (List Char) :=
  match codeContent tag with
  | none => none
  | some content =>
    some (unescapeHtml
      (lc "<ac:structured-macro ac:name=\"code\"><ac:parameter ac:name=\"theme\">Midnight</ac:parameter><ac:parameter ac:name=\"linenumbers\">true</ac:parameter><ac:parameter ac:name=\"language\">" ++
        codeLang tag ++ lc "</ac:parameter>" ++
        lc "<ac:plain-text-body><![CDATA[" ++ content ++
        lc "]]></ac:plain-text-body>" ++ lc "</ac:structured-macro>"))

def codeFold : List Char → List (List Char) → Option (List Char)
  | html, [] => some html
  | html, tag :: tags =>
    match codeReplacement tag with
    | none => none
    | some rep => codeFold (replaceAll html tag rep) tags

/-- `MarkdownConverter.convert_code_block(html)`. -/
def convertCodeBlock (html : List Char) : Option (List Char) :=
  codeFold html (findCodeBlocks html)

def isEmoji (c : Char) : Bool :=
  (0x1F600 ≤ c.toNat && c.toNat ≤ 0x1F64F) ||
  (0x1F300 ≤ c.toNat && c.toNat ≤ 0x1F5FF) ||
  (0x1F680 ≤ c.toNat && c.toNat ≤ 0x1F6FF) ||
  (0x1F1E0 ≤ c.toNat && c.toNat ≤ 0x1F1FF)

/-- `MarkdownConverter.remove_emojies(html)`. -/
def removeEmojies (html : List Char) : List Char := html.filter (fun c => !isEmoji c)

def contentsMarkup : List Char :=
  lc "<ac:structured-macro ac:name=\"toc\">\n<ac:parameter ac:name=\"printable\">true</ac:parameter>\n<ac:parameter ac:name=\"style\">disc</ac:parameter><ac:parameter ac:name=\"maxLevel\">5</ac:parameter>\n<ac:parameter ac:name=\"minLevel\">1</ac:parameter><ac:parameter ac:name=\"class\">rm-contents</ac:parameter>\n<ac:parameter ac:name=\"exclude\"></ac:parameter>\n<ac:parameter ac:name=\"type\">list</ac:parameter><ac:parameter ac:name=\"outline\">false</ac:parameter>\n<ac:parameter ac:name=\"include\"></ac:parameter>\n</ac:structured-macro>"

/-- `MarkdownConverter.add_contents(html)`. -/
def addContents (html : List Char) : List Char := contentsMarkup ++ '\n' :: html

/-- The ordered pass sequence of `convert_md_to_conf_html` applied to the
rendered HTML (the Markdown rendering and title-line drop are external);
`none` models an uncaught exception in a pass. -/
def convertPasses (removeEm addCont : Bool) (html : List Char) : Option (List Char) :=
  match convertInfoMacros (createTableOfContent html) with
  | none => none
  | some h2 =>
    match convertCodeBlock (convertCommentBlock h2) with
    | none => none
    | some h4 =>
      processRefs (if addCont then addContents (if removeEm then removeEmojies h4 else h4)
        else if removeEm then removeEmojies h4 else h4)

/-! ## Toolkit lemmas about the string primitives -/

theorem isPre_iff_pref {p s : List Char} : isPre p s = true ↔ p <+: s := by
  induction p generalizing s with
  | nil => simp [isPre]
  | cons a ps ih =>
    cases s with
    | nil => simp [isPre]
    | cons b t =>
      simp only [isPre, Bool.and_eq_true, beq_iff_eq]
      constructor
      · rintro ⟨rfl, h⟩
        rcases ih.mp h with ⟨r, hr⟩
        exact ⟨r, by simp [hr]⟩
      · intro h
        rcases h with ⟨r, hr⟩
        injection hr with h1 h2
        exact ⟨h1, ih.mpr ⟨r, h2⟩⟩

theorem isPre_append (p t : List Char) : isPre p (p ++ t) = true :=
  isPre_iff_pref.mpr ⟨t, rfl⟩

theorem isPre_app (p q s : List Char) : isPre (p ++ q) (p ++ s) = isPre q s := by
  induction p with
  | nil => rfl
  | cons a ps ih => simp [isPre, ih]

theorem isPre_head_false {a b : Char} (h : a ≠ b) (p s : List Char) :
    isPre (a :: p) (b :: s) = false := by
  simp [isPre, h]

theorem firstOcc_none_iff {hay pat : List Char} :
    firstOcc hay pat = none ↔ ¬ pat <:+: hay := by
  induction hay with
  | nil =>
    simp only [firstOcc]
    by_cases hp : pat.isEmpty = true
    · rw [List.isEmpty_iff.mp hp]
      simp
    · rw [if_neg hp]
      constructor
      · intro _ hinf
        have := List.eq_nil_of_infix_nil hinf
        simp [this] at hp
      · intro _; rfl
  | cons c t ih =>
    simp only [firstOcc]
    by_cases hp : isPre pat (c :: t) = true
    · rw [if_pos hp]
      constructor
      · intro h; cases h
      · intro h
        exact absurd (isPre_iff_pref.mp hp).isInfix h
    · rw [if_neg hp]
      rw [Option.map_eq_none', ih]
      constructor
      · intro h hinf
        rcases List.infix_cons_iff.mp hinf with h1 | h1
        · exact hp (isPre_iff_pref.mpr h1)
        · exact h h1
      · intro h h1
        exact h (h1.trans (List.suffix_cons c t).isInfix)

theorem firstOcc_isSome_iff {hay pat : List Char} :
    (firstOcc hay pat).isSome = true ↔ pat <:+: hay := by
  rw [Option.isSome_iff_ne_none]
  constructor
  · intro h
    by_contra hc
    exact h (firstOcc_none_iff.mpr hc)
  · intro h hn
    exact firstOcc_none_iff.mp hn h

theorem firstOcc_none_of_infix {hay p q : List Char} (hpq : p <:+: q)
    (h : firstOcc hay p = none) : firstOcc hay q = none :=
  firstOcc_none_iff.mpr (fun hq => firstOcc_none_iff.mp h (hpq.trans hq))

theorem firstOcc_none_of_char {hay pat : List Char} {c : Char} (hc : c ∈ pat)
    (h : c ∉ hay) : firstOcc hay pat = none :=
  firstOcc_none_iff.mpr (fun hinf => h (hinf.subset hc))

theorem firstOcc_cons_pos {pat : List Char} {c : Char} {t : List Char}
    (h : isPre pat (c :: t) = true) : firstOcc (c :: t) pat = some 0 := by
  simp only [firstOcc]
  rw [if_pos h]

theorem firstOcc_cons_neg {pat : List Char} {c : Char} {t : List Char}
    (h : isPre pat (c :: t) = false) :
    firstOcc (c :: t) pat = (firstOcc t pat).map (· + 1) := by
  simp only [firstOcc]
  rw [if_neg (by simp [h])]

theorem firstOcc_self_append (pat t : List Char) (hne : pat ≠ []) :
    firstOcc (pat ++ t) pat = some 0 := by
  cases pat with
  | nil => exact absurd rfl hne
  | cons p ps =>
    rw [List.cons_append]
    refine firstOcc_cons_pos ?_
    rw [← List.cons_append]
    exact isPre_append _ _

theorem firstOcc_append_head {p : Char} {ps : List Char} {a b : List Char}
    (ha : ∀ c ∈ a, c ≠ p) :
    firstOcc (a ++ b) (p :: ps) = (firstOcc b (p :: ps)).map (· + a.length) := by
  induction a with
  | nil => simp
  | cons c t ih =>
    have hc : c ≠ p := ha c (by simp)
    rw [List.cons_append, firstOcc_cons_neg (isPre_head_false (fun h => hc h.symm) ps _),
      ih (fun d hd => ha d (by simp [hd]))]
    cases firstOcc b (p :: ps) with
    | none => rfl
    | some k => simp [Nat.add_comm, Nat.add_assoc, Nat.add_left_comm]

theorem replF_congr (pat rep : List Char) :
    ∀ n m hay, hay.length ≤ n → hay.length ≤ m → replF n hay pat rep = replF m hay pat rep := by
  intro n
  induction n with
  | zero =>
    intro m hay hn _
    have : hay = [] := List.eq_nil_of_length_eq_zero (Nat.le_zero.mp hn)
    subst this
    cases m <;> rfl
  | succ n ih =>
    intro m hay hn hm
    cases hay with
    | nil => cases m <;> rfl
    | cons c t =>
      cases m with
      | zero => simp at hm
      | succ m =>
        simp only [List.length_cons] at hn hm
        simp only [replF]
        by_cases hp : (!pat.isEmpty && isPre pat (c :: t)) = true
        · rw [if_pos hp, if_pos hp]
          congr 1
          refine ih m _ ?_ ?_ <;>
            calc (List.drop (pat.length - 1) t).length ≤ t.length := by
                  rw [List.length_drop]; omega
              _ ≤ _ := by omega
        · rw [if_neg hp, if_neg hp]
          congr 1
          exact ih m t (by omega) (by omega)

theorem replaceAll_eq_replF {hay pat rep : List Char} {n : Nat} (h : hay.length ≤ n) :
    replaceAll hay pat rep = replF n hay pat rep :=
  replF_congr pat rep hay.length n hay le_rfl h

theorem replaceAll_no {hay pat rep : List Char} (h : firstOcc hay pat = none) :
    replaceAll hay pat rep = hay := by
  suffices hs : ∀ n hay, hay.length ≤ n → firstOcc hay pat = none →
      replF n hay pat rep = hay by
    exact hs hay.length hay le_rfl h
  intro n
  induction n with
  | zero =>
    intro hay hn _
    have : hay = [] := List.eq_nil_of_length_eq_zero (Nat.le_zero.mp hn)
    subst this; rfl
  | succ n ih =>
    intro hay hn ho
    cases hay with
    | nil => rfl
    | cons c t =>
      simp only [List.length_cons] at hn
      have hpre : isPre pat (c :: t) = false := by
        by_contra hc
        rw [firstOcc_cons_pos (by simpa using hc)] at ho
        cases ho
      have ht : firstOcc t pat = none := by
        rw [firstOcc_cons_neg hpre] at ho
        simpa using ho
      simp only [replF]
      rw [if_neg (by simp [hpre])]
      rw [ih t (by omega) ht]

theorem replaceAll_cons_neg {pat : List Char} {c : Char} {t rep : List Char}
    (h : isPre pat (c :: t) = false) :
    replaceAll (c :: t) pat rep = c :: replaceAll t pat rep := by
  show replF (c :: t).length (c :: t) pat rep = _
  simp only [List.length_cons, replF]
  rw [if_neg (by simp [h])]
  rfl

theorem replaceAll_head {pat rest rep : List Char} (hne : pat ≠ []) :
    replaceAll (pat ++ rest) pat rep = rep ++ replaceAll rest pat rep := by
  cases pat with
  | nil => exact absurd rfl hne
  | cons p ps =>
    show replF ((p :: ps) ++ rest).length ((p :: ps) ++ rest) _ _ = _
    have hpre : isPre (p :: ps) (p :: (ps ++ rest)) = true := by
      rw [← List.cons_append]; exact isPre_append _ _
    simp only [List.cons_append, List.length_cons, List.length_append, replF]
    rw [if_pos (by simp [hpre])]
    congr 1
    have hdrop : List.drop (ps.length + 1 - 1) (ps.append rest) = rest := by
      simp only [Nat.add_sub_cancel, List.append_eq]
      exact List.drop_left ps rest
    rw [hdrop]
    refine (replaceAll_eq_replF ?_).symm
    simp only [List.append_eq, List.length_append]
    omega

theorem replaceAll_append_left {p : Char} {ps a b rep : List Char}
    (ha : ∀ c ∈ a, c ≠ p) :
    replaceAll (a ++ b) (p :: ps) rep = a ++ replaceAll b (p :: ps) rep := by
  induction a with
  | nil => simp
  | cons c t ih =>
    have hc : c ≠ p := ha c (by simp)
    rw [List.cons_append,
      replaceAll_cons_neg (isPre_head_false (fun h => hc h.symm) ps _),
      ih (fun d hd => ha d (by simp [hd])), List.cons_append]

theorem replaceAll_exact {pat rep : List Char} (hne : pat ≠ []) :
    replaceAll pat pat rep = rep := by
  have h2 : replaceAll (pat ++ []) pat rep = rep ++ replaceAll [] pat rep :=
    replaceAll_head hne
  simp only [List.append_nil] at h2
  rw [h2]
  show rep ++ replF 0 [] pat rep = rep
  simp [replF]

theorem pyLStrip_cons {c : Char} {l : List Char} (h : isPySpace c = false) :
    pyLStrip (c :: l) = c :: l := by
  simp [pyLStrip, List.dropWhile_cons, h]

theorem pyRStrip_append {x y : List Char} (hy : ∃ c ∈ y, isPySpace c = false) :
    pyRStrip (x ++ y) = x ++ pyRStrip y := by
  unfold pyRStrip
  rw [List.reverse_append, List.dropWhile_append]
  have hne : (y.reverse.dropWhile isPySpace).isEmpty = false := by
    rcases hy with ⟨c, hc, hcs⟩
    rcases hd : y.reverse.dropWhile isPySpace with _ | _
    · have := List.dropWhile_eq_nil_iff.mp hd c (by simpa using hc)
      rw [this] at hcs; cases hcs
    · rfl
  rw [hne]
  simp

theorem strip_keeps_prefix {p r : List Char} {c : Char} (hc : isPySpace c = false)
    (hr : ∃ d ∈ r, isPySpace d = false) :
    pyStrip ((c :: p) ++ r) = (c :: p) ++ pyRStrip r := by
  unfold pyStrip
  rw [pyRStrip_append hr, List.cons_append, pyLStrip_cons hc]

/-! ## Pass-identity lemmas (each pass is the identity when its literal
trigger pattern is absent) -/

theorem bqStep_none {html : List Char}
    (h : firstOcc html (lc "<blockquote>") = none) : bqStep html = none := by
  simp [bqStep, h]

theorem findBQs_nil {html : List Char}
    (h : firstOcc html (lc "<blockquote>") = none) : findBQs html = [] := by
  unfold findBQs
  cases html.length with
  | zero => rfl
  | succ n => simp [findBQsF, bqStep_none h]

theorem findCodeBlocks_nil {html : List Char}
    (h : firstOcc html (lc "<pre><code") = none) : findCodeBlocks html = [] := by
  unfold findCodeBlocks
  cases html.length with
  | zero => rfl
  | succ n => simp [findCodeBlocksF, h]

theorem convertDoctoc_id {html : List Char}
    (h : firstOcc html docOpen = none) : convertDoctoc html = html := by
  simp [convertDoctoc, h]

theorem convertGithubAlerts_id {html : List Char}
    (h : findBQs html = []) : convertGithubAlerts html = html := by
  simp [convertGithubAlerts, h]

/-! ## C7: the slug pipeline -/

/-- **C7**: for every heading string, `slug` computes its result by
stripping HTML tags, then HTML entities, then replacing spaces with
hyphens, then removing every character outside `[A-Za-z0-9-]`
(lower-casing first when the lowercase flag is set); non-ASCII letters are
silently dropped, so the case-preserving slug of "Café" is "Caf". -/
theorem slug_spec :
    (∀ s b, slugF s b =
      (spacesToDash (stripEnts (stripTags (if b then lowerL s else s)))).filter isSlugChar) ∧
    slugF (lc "Café") false = lc "Caf" ∧
    (∀ s b c, c ∈ slugF s b → isSlugChar c = true) := by
  refine ⟨fun s b => rfl, by decide, fun s b c hc => ?_⟩
  exact (List.mem_filter.mp hc).2

theorem slug_spec_witness : isSlugChar 'C' = true :=
  slug_spec.2.2 (lc "Café") false 'C' (by decide)

/-! ## C1: header collision handling -/

/-- **C1**: on `["Section 1","Section 1","Section 1"]` with prefix `"#"`,
postfix `"_%d"` and editor mode 2, `process_headers` returns exactly the
claimed map; in general the per-base-key counter starts at 1, a first
occurrence is stored under the base key, and each subsequent duplicate is
stored under the base key extended by the postfix pattern applied to the
counter, with `".counter"` appended to the value, after which the counter
increments. -/
theorem processHeaders_collision :
    processHeaders 2 (lc "#") (lc "_%d")
        [lc "Section 1", lc "Section 1", lc "Section 1"] =
      some [(lc "#section-1", lc "Section-1"), (lc "#section-1_1", lc "Section-1.1"),
        (lc "#section-1_2", lc "Section-1.2")] ∧
    (∀ ev pre pf m cnt header value, evValue ev header = some value →
      aMem m (pre ++ slugF header true) = false →
      phStep ev pre pf (m, cnt) header =
        some (m ++ [(pre ++ slugF header true, value)],
          cnt ++ [(pre ++ slugF header true, 1)])) ∧
    (∀ ev pre pf m cnt header value k, evValue ev header = some value →
      aMem m (pre ++ slugF header true) = true →
      aGet cnt (pre ++ slugF header true) = some k →
      phStep ev pre pf (m, cnt) header =
        some (aSet m (pre ++ slugF header true ++ pyFormat pf k)
            (value ++ '.' :: natDigits k),
          aSet cnt (pre ++ slugF header true) (k + 1))) := by
  refine ⟨by decide, ?_, ?_⟩
  · intro ev pre pf m cnt header value hv hm
    unfold phStep
    rw [hv]
    simp [hm]
  · intro ev pre pf m cnt header value k hv hm hget
    unfold phStep
    rw [hv]
    simp [hm, hget, List.append_assoc]

theorem processHeaders_collision_witness :
    phStep 2 (lc "#") (lc "_%d") ([], []) (lc "A") =
      some ([] ++ [(lc "#" ++ slugF (lc "A") true, lc "A")],
        [] ++ [(lc "#" ++ slugF (lc "A") true, 1)]) ∧
    phStep 2 (lc "#") (lc "_%d") ([(lc "#a", lc "A")], [(lc "#a", 1)]) (lc "A") =
      some (aSet [(lc "#a", lc "A")] (lc "#" ++ slugF (lc "A") true ++ pyFormat (lc "_%d") 1)
          (lc "A" ++ '.' :: natDigits 1),
        aSet [(lc "#a", 1)] (lc "#" ++ slugF (lc "A") true) 2) :=
  ⟨processHeaders_collision.2.1 2 (lc "#") (lc "_%d") [] [] (lc "A") (lc "A")
      (by decide) (by decide),
    processHeaders_collision.2.2 2 (lc "#") (lc "_%d") [(lc "#a", lc "A")]
      [(lc "#a", 1)] (lc "A") (lc "A") 1 (by decide) (by decide) (by decide)⟩

/-! ## C9: only single-digit footnote identifiers -/

theorem refMatchAt_digit {s : List Char} {r : Bool × List Char × Char}
    (h : refMatchAt s = some r) : (r.2.2).isDigit = true := by
  unfold refMatchAt at h
  split at h
  · split at h
    · cases h; assumption
    · cases h
  · split at h
    · cases h; assumption
    · cases h
  · cases h

theorem findRefsF_digit :
    ∀ n l r, r ∈ findRefsF n l → (r.2.2).isDigit = true := by
  intro n
  induction n with
  | zero => intro l r hr; simp [findRefsF] at hr
  | succ n ih =>
    intro l r hr
    cases l with
    | nil => simp [findRefsF] at hr
    | cons c t =>
      simp only [findRefsF] at hr
      cases hm : refMatchAt (c :: t) with
      | none => rw [hm] at hr; exact ih _ _ hr
      | some r0 =>
        rw [hm] at hr
        rcases List.mem_cons.mp hr with h | h
        · subst h; exact refMatchAt_digit hm
        · exact ih _ _ h

/-- **C9**: `process_refs` recognizes only single-digit footnote
identifiers: every matched definition carries a single ASCII digit, and a
document whose only footnote uses the two-digit identifier `10` is
returned unchanged (the definition is not removed, the marker not
replaced). -/
theorem refs_single_digit :
    (∀ html r, r ∈ findRefs html → (r.2.2).isDigit = true) ∧
    findRefs (lc "<p>x[^10].</p>\n[^10]: def with <a href=\"http://x.com\">l</a>.") = [] ∧
    processRefs (lc "<p>x[^10].</p>\n[^10]: def with <a href=\"http://x.com\">l</a>.") =
      some (lc "<p>x[^10].</p>\n[^10]: def with <a href=\"http://x.com\">l</a>.") :=
  ⟨fun _ r h => findRefsF_digit _ _ r h, by decide, by decide⟩

theorem refs_single_digit_witness : ('1').isDigit = true :=
  refs_single_digit.1 (lc "\n[^1]: x") (true, lc "[^1]: x", '1') (by decide)

/-! ## C3: unknown GitHub alert types -/

/-- **C3 counterexample**: the full `convert_info_macros` pass does not
return an `[!UNKNOWN]` blockquote unchanged. -/
theorem unknownAlert_not_passthrough :
    convertInfoMacros
        (lc "<blockquote><p>[!UNKNOWN] This alert type does not exist.</p></blockquote>") ≠
      some (lc "<blockquote><p>[!UNKNOWN] This alert type does not exist.</p></blockquote>") := by
  decide

/-- **C3 amended**: a blockquote with an unknown alert marker passes
through the GitHub-alert sub-pass unchanged (its parse yields nothing),
but the heuristic fallback of `convert_info_macros` then converts it to
the default info macro, keeping the `[!UNKNOWN]` text inside. -/
theorem unknownAlert_default_info :
    parseAlert (lc "<p>[!UNKNOWN] This alert type does not exist.</p>") = none ∧
    convertGithubAlerts
        (lc "<blockquote><p>[!UNKNOWN] This alert type does not exist.</p></blockquote>") =
      lc "<blockquote><p>[!UNKNOWN] This alert type does not exist.</p></blockquote>" ∧
    convertInfoMacros
        (lc "<blockquote><p>[!UNKNOWN] This alert type does not exist.</p></blockquote>") =
      some (infoTagP ++ lc "[!UNKNOWN] This alert type does not exist." ++ closeTagP) :=
  ⟨by decide, by decide, by decide⟩

/-! ## C5: footnote processing -/

theorem prFold_none_iff :
    ∀ rs html, prFold html rs = none ↔ ∃ r ∈ rs, hrefOf (cleanRef r) = none := by
  intro rs
  induction rs with
  | nil => intro html; simp [prFold]
  | cons r rs ih =>
    intro html
    simp only [prFold]
    cases h : hrefOf (cleanRef r) with
    | none =>
      have hstep : prStep html r = none := by simp [prStep, h]
      exact iff_of_true (by rw [hstep]) ⟨r, List.mem_cons_self r rs, h⟩
    | some hh =>
      have hstep : prStep html r =
          some (replaceAll (replaceAll html (cleanRef r) [])
            ('[' :: '^' :: (r.2.2) :: [']']) (supOf hh r.2.2)) := by
        simp [prStep, h]
      rw [hstep]
      rw [ih]
      constructor
      · rintro ⟨x, hx, hhx⟩
        exact ⟨x, List.mem_cons_of_mem r hx, hhx⟩
      · rintro ⟨x, hx, hhx⟩
        rcases List.mem_cons.mp hx with rfl | hx2
        · rw [h] at hhx; cases hhx
        · exact ⟨x, hx2, hhx⟩

/-- **C5**: `process_refs` raises an unrecovered exception if and only if
some matched footnote definition contains no extractable hyperlink; when
every definition has one, the spec's own example input is rewritten to the
claimed output (definition text removed everywhere, every `[^1]` marker
replaced by the superscript anchor using the first `href` found). -/
theorem processRefs_spec :
    (∀ html, processRefs html = none ↔
      ∃ r ∈ findRefs html, hrefOf (cleanRef r) = none) ∧
    processRefs (lc "<p>text[^1].</p>\n[^1]: See <a href=\"http://x.com\">here</a>.") =
      some (lc "<p>text<a id=\"test\" href=\"http://x.com\"><sup>1</sup></a>.</p>\n") :=
  ⟨fun html => prFold_none_iff (findRefs html) html, by decide⟩

/-! ## C10: the editor-version precondition -/

theorem aMem_cons {β : Type} {x : List Char × β} {l : List (List Char × β)}
    {q : List Char} : aMem (x :: l) q = ((x.1 == q) || aMem l q) := by
  simp only [aMem, aGet, List.find?]
  cases h : (x.1 == q) <;> simp [h]

theorem aMem_append {β : Type} {d₁ d₂ : List (List Char × β)} {k : List Char} :
    aMem (d₁ ++ d₂) k = (aMem d₁ k || aMem d₂ k) := by
  induction d₁ with
  | nil => simp [aMem, aGet]
  | cons x l ih =>
    rw [List.cons_append, aMem_cons, aMem_cons, ih, Bool.or_assoc]

theorem aMem_map_keyFix {β : Type} {d : List (List Char × β)} {kk : List Char}
    {v : β} {q : List Char} :
    aMem (d.map (fun p => if p.1 == kk then (p.1, v) else p)) q = aMem d q := by
  induction d with
  | nil => rfl
  | cons x l ih =>
    simp only [List.map_cons]
    by_cases hx : (x.1 == kk) = true
    · rw [if_pos hx, aMem_cons, aMem_cons, ih]
    · rw [if_neg hx, aMem_cons, aMem_cons, ih]

theorem aMem_aSet {β : Type} {d : List (List Char × β)} {kk : List Char} {v : β}
    {q : List Char} :
    aMem (aSet d kk v) q = (aMem d q || kk == q) := by
  unfold aSet
  by_cases hm : aMem d kk = true
  · rw [if_pos hm, aMem_map_keyFix]
    by_cases hq : (kk == q) = true
    · have : kk = q := by simpa using hq
      subst this
      simp [hm, hq]
    · simp [Bool.eq_false_iff.mpr hq]
  · rw [if_neg hm, aMem_append, aMem_cons]
    have : aMem ([] : List (List Char × β)) q = false := rfl
    rw [this, Bool.or_false]

theorem slug_no_underscore {h : List Char} {b : Bool} : '_' ∉ slugF h b := by
  intro hmem
  have hf : slugF h b =
      (spacesToDash (stripEnts (stripTags (if b then lowerL h else h)))).filter
        isSlugChar := rfl
  rw [hf] at hmem
  have := (List.mem_filter.mp hmem).2
  simp [isSlugChar] at this

theorem phFold_isSome {ev : Nat} {pre : List Char} (hev : ev = 1 ∨ ev = 2)
    (hpre : '_' ∉ pre) :
    ∀ headers st, (∀ k, aMem st.1 k = true → '_' ∉ k → aMem st.2 k = true) →
      (phFold ev pre (lc "_%d") st headers).isSome = true := by
  intro headers
  induction headers with
  | nil => intro st _; simp [phFold]
  | cons h hs ih =>
    intro st hinv
    have hkey : '_' ∉ pre ++ slugF h true := by
      intro hmem
      rcases List.mem_append.mp hmem with hm | hm
      · exact hpre hm
      · exact slug_no_underscore hm
    have hval : ∃ v, evValue ev h = some v := by
      rcases hev with rfl | rfl
      · exact ⟨v1Value h, rfl⟩
      · exact ⟨slugF h false, rfl⟩
    rcases hval with ⟨v, hv⟩
    simp only [phFold]
    by_cases hm : aMem st.1 (pre ++ slugF h true) = true
    · have hc : aMem st.2 (pre ++ slugF h true) = true := hinv _ hm hkey
      rcases Option.isSome_iff_exists.mp hc with ⟨c, hcget⟩
      have hstep : phStep ev pre (lc "_%d") st h =
          some (aSet st.1 (pre ++ slugF h true ++ pyFormat (lc "_%d") c)
              (v ++ '.' :: natDigits c),
            aSet st.2 (pre ++ slugF h true) (c + 1)) := by
        unfold phStep
        rw [hv]
        simp [hm, hcget, List.append_assoc]
      rw [hstep]
      refine ih _ ?_
      intro q hq hqu
      have hfmt : pyFormat (lc "_%d") c = '_' :: (natDigits c ++ []) := by
        rw [show lc "_%d" = ['_', '%', 'd'] from by decide]
        rfl
      have haltu : '_' ∈ pre ++ slugF h true ++ pyFormat (lc "_%d") c := by
        rw [hfmt]
        simp
      rw [aMem_aSet] at hq
      have hqne : (pre ++ slugF h true ++ pyFormat (lc "_%d") c == q) = false := by
        rw [beq_eq_false_iff_ne]
        intro he
        rw [he] at haltu
        exact hqu haltu
      rw [hqne, Bool.or_false] at hq
      rw [aMem_aSet]
      rw [hinv q hq hqu]
      rfl
    · have hstep : phStep ev pre (lc "_%d") st h =
          some (st.1 ++ [(pre ++ slugF h true, v)],
            st.2 ++ [(pre ++ slugF h true, 1)]) := by
        unfold phStep
        rw [hv]
        simp [hm]
      rw [hstep]
      refine ih _ ?_
      intro q hq hqu
      rw [aMem_append] at hq ⊢
      rcases Bool.or_eq_true_iff.mp hq with hq1 | hq1
      · rw [hinv q hq1 hqu]
        rfl
      · have hsing : ∀ (β : Type) (w : β), aMem [(pre ++ slugF h true, w)] q =
            (pre ++ slugF h true == q) := by
          intro β w
          rw [aMem_cons]
          have hn : aMem ([] : List (List Char × β)) q = false := rfl
          rw [hn, Bool.or_false]
        rw [hsing _ v] at hq1
        rw [hsing _ 1, hq1, Bool.or_true]

/-- **C10 counterexample**: even inside the claimed precondition
(`editor_version = 2`) `process_headers` is not total: on headings
`["a","a","a-1"]` with postfix `"-%d"` the third base key `#a-1` equals
the previously generated alternate key, which is in `headers_map` but not
in `headers_count`, so `headers_count[key]` raises `KeyError`. -/
theorem processHeaders_not_total :
    processHeaders 2 (lc "#") (lc "-%d") [lc "a", lc "a", lc "a-1"] = none := by
  decide

/-- **C10 amended**: with any editor version other than 1 or 2,
`process_headers` fails on every non-empty heading sequence (the display
value is never assigned) and `process_links` fails on the first link whose
fragment resolves to a truthy anchor; with version 1 or 2 the unassigned-
value branch is unreachable: `process_links` succeeds on every list of
parseable links, and `process_headers` succeeds whenever base keys cannot
collide with generated alternate keys (in particular for the repository's
postfix `"_%d"` and an underscore-free prefix — but not in general, see
the counterexample). -/
theorem editorVersion_precondition :
    (∀ ev pre pf headers, ev ≠ 1 → ev ≠ 2 → headers ≠ [] →
      processHeaders ev pre pf headers = none) ∧
    (∀ ev pre headers, (ev = 1 ∨ ev = 2) → '_' ∉ pre →
      (processHeaders ev pre (lc "_%d") headers).isSome = true) ∧
    (∀ ev api space pid title hm html link ref alt v, ev ≠ 1 → ev ≠ 2 →
      parseLinkTag link = some (ref, alt) → aGet hm ref = some v → v ≠ [] →
      processLinks ev api space pid title hm html [link] = none) ∧
    (∀ ev api space pid title hm html links, (ev = 1 ∨ ev = 2) →
      (∀ l ∈ links, (parseLinkTag l).isSome = true) →
      (processLinks ev api space pid title hm html links).isSome = true) := by
  refine ⟨?_, ?_, ?_, ?_⟩
  · intro ev pre pf headers h1 h2 hne
    cases headers with
    | nil => exact absurd rfl hne
    | cons h hs =>
      have hv : evValue ev h = none := by
        unfold evValue
        rw [if_neg h1, if_neg h2]
      unfold processHeaders phFold
      have hstep : phStep ev pre pf ([], []) h = none := by
        unfold phStep
        rw [hv]
      rw [hstep]
      rfl
  · intro ev pre headers hev hpre
    unfold processHeaders
    have hsome := phFold_isSome hev hpre headers ([], [])
      (by intro k hk _; simp [aMem, aGet] at hk)
    rcases Option.isSome_iff_exists.mp hsome with ⟨st, hst⟩
    rw [hst]
    rfl
  · intro ev api space pid title hm html link ref alt v h1 h2 hp hg hv
    unfold processLinks plFold
    have hrep : linkReplacement ev api space pid title v alt = none := by
      unfold linkReplacement
      rw [if_neg h1, if_neg h2]
    have hemp : v.isEmpty = false := by
      cases v with
      | nil => exact absurd rfl hv
      | cons a t => rfl
    have hstep : plStep ev api space pid title hm html link = none := by
      simp only [plStep, hp, hg, hemp, hrep]
      simp
    rw [hstep]
  · intro ev api space pid title hm html links hev hp
    induction links generalizing html with
    | nil => simp [processLinks, plFold]
    | cons l ls ih =>
      rcases Option.isSome_iff_exists.mp (hp l (List.mem_cons_self l ls)) with ⟨⟨ref, alt⟩, hpl⟩
      have hstep : ∃ h2, plStep ev api space pid title hm html l = some h2 := by
        cases hg : aGet hm ref with
        | none => exact ⟨html, by simp [plStep, hpl, hg]⟩
        | some v =>
          cases hemp : v.isEmpty with
          | true => exact ⟨html, by simp [plStep, hpl, hg, hemp]⟩
          | false =>
            have hrep : ∃ rep, linkReplacement ev api space pid title v alt = some rep := by
              rcases hev with rfl | rfl
              · exact ⟨_, rfl⟩
              · exact ⟨_, rfl⟩
            rcases hrep with ⟨rep, hrep⟩
            exact ⟨replaceAll html l rep, by simp [plStep, hpl, hg, hemp, hrep]⟩
      rcases hstep with ⟨h2, hstep⟩
      unfold processLinks plFold
      rw [hstep]
      exact ih h2 (fun x hx => hp x (List.mem_cons_of_mem l hx))

theorem editorVersion_precondition_witness :
    processHeaders 3 (lc "#") (lc "_%d") [lc "a"] = none ∧
    (processHeaders 2 (lc "#") (lc "_%d") [lc "a", lc "a"]).isSome = true ∧
    processLinks 3 (lc "a") (lc "S") 1 (lc "T") [(lc "#x", lc "X")] (lc "z")
      [lc "<a href=\"#x\">y</a>"] = none ∧
    (processLinks 2 (lc "a") (lc "S") 1 (lc "T") [(lc "#x", lc "X")] (lc "z")
      [lc "<a href=\"#x\">y</a>"]).isSome = true :=
  ⟨editorVersion_precondition.1 3 (lc "#") (lc "_%d") [lc "a"] (by decide) (by decide)
      (by decide),
    editorVersion_precondition.2.1 2 (lc "#") [lc "a", lc "a"] (Or.inr rfl) (by decide),
    editorVersion_precondition.2.2.1 3 (lc "a") (lc "S") 1 (lc "T") [(lc "#x", lc "X")]
      (lc "z") (lc "<a href=\"#x\">y</a>") (lc "#x") (lc "y") (lc "X") (by decide)
      (by decide) (by decide) (by decide) (by decide),
    editorVersion_precondition.2.2.2 2 (lc "a") (lc "S") 1 (lc "T") [(lc "#x", lc "X")]
      (lc "z") [lc "<a href=\"#x\">y</a>"] (Or.inr rfl) (by decide)⟩

/-! ## C6: local link resolution -/

theorem contains_eq_false {l : List Char} {c : Char} (h : c ∉ l) :
    l.contains c = false := by
  cases hc : l.contains c
  · rfl
  · exact absurd (List.mem_of_elem_eq_true hc) h

theorem matchLinkAt_shape {f alt : List Char}
    (hf : f ≠ []) (hfq : '"' ∉ f) (hfn : '\n' ∉ f)
    (ha : alt ≠ []) (hal : '<' ∉ alt) (han : '\n' ∉ alt) :
    matchLinkAt (lc "<a href=\"" ++ ('#' :: f) ++ lc "\">" ++ alt ++ lc "</a>") =
      some ('#' :: f, alt) := by
  have hassoc : lc "<a href=\"" ++ ('#' :: f) ++ lc "\">" ++ alt ++ lc "</a>" =
      lc "<a href=\"" ++ ('#' :: (f ++ lc "\">" ++ alt ++ lc "</a>")) := by
    simp [List.append_assoc]
  unfold matchLinkAt
  rw [hassoc, if_pos (isPre_append _ _)]
  rw [show (9 : Nat) = (lc "<a href=\"").length from by decide, List.drop_left]
  rcases f with _ | ⟨f0, ft⟩
  · exact absurd rfl hf
  have hq0 : f0 ≠ '"' := fun he => hfq (by simp [he])
  -- the `">` search
  have hdrop1 : ((f0 :: ft) ++ lc "\">" ++ alt ++ lc "</a>").drop 1 =
      ft ++ (lc "\">" ++ (alt ++ lc "</a>")) := by
    simp [List.append_assoc]
  have hocc1 : firstOcc (ft ++ (lc "\">" ++ (alt ++ lc "</a>"))) (lc "\">") =
      some ft.length := by
    rw [show lc "\">" = '"' :: lc ">" from by decide]
    rw [firstOcc_append_head (fun c hc he => hfq (by simp [he ▸ hc]))]
    rw [← show lc "\">" = '"' :: lc ">" from by decide]
    rw [firstOcc_self_append _ _ (by decide)]
    simp
  simp only [hdrop1, hocc1, Option.map_some']
  have htake : ((f0 :: ft) ++ lc "\">" ++ alt ++ lc "</a>").take (ft.length + 1) =
      f0 :: ft := by
    have : ((f0 :: ft) ++ (lc "\">" ++ alt ++ lc "</a>")).take (f0 :: ft).length =
        f0 :: ft := List.take_left _ _
    simpa [List.append_assoc] using this
  rw [htake, contains_eq_false hfn]
  have hdrop2 : ((f0 :: ft) ++ lc "\">" ++ alt ++ lc "</a>").drop (ft.length + 1 + 2) =
      alt ++ lc "</a>" := by
    have h1 : ((f0 :: ft) ++ lc "\">") ++ (alt ++ lc "</a>") =
        (f0 :: ft) ++ lc "\">" ++ alt ++ lc "</a>" := by simp [List.append_assoc]
    rw [← h1]
    rw [show ft.length + 1 + 2 = ((f0 :: ft) ++ lc "\">").length from by
      have h2 : (lc "\">").length = 2 := by decide
      simp only [List.length_append, List.length_cons, h2]]
    exact List.drop_left _ _
  rw [hdrop2]
  rcases alt with _ | ⟨a0, at2⟩
  · exact absurd rfl ha
  have hdrop3 : ((a0 :: at2) ++ lc "</a>").drop 1 = at2 ++ lc "</a>" := rfl
  have hocc2 : firstOcc (at2 ++ lc "</a>") (lc "</a>") = some at2.length := by
    rw [show lc "</a>" = '<' :: lc "/a>" from by decide]
    rw [firstOcc_append_head (fun c hc he => hal (by simp [he ▸ hc]))]
    rw [← show lc "</a>" = '<' :: lc "/a>" from by decide]
    rw [show firstOcc (lc "</a>") (lc "</a>") = some 0 from by decide]
    simp
  rw [hdrop3, hocc2]
  simp only [Option.map_some']
  have htake2 : ((a0 :: at2) ++ lc "</a>").take (at2.length + 1) = a0 :: at2 := by
    have : ((a0 :: at2) ++ lc "</a>").take (a0 :: at2).length = a0 :: at2 :=
      List.take_left _ _
    simpa using this
  rw [htake2, contains_eq_false han]
  simp

theorem parseLinkTag_shape {f alt : List Char}
    (hf : f ≠ []) (hfq : '"' ∉ f) (hfn : '\n' ∉ f)
    (ha : alt ≠ []) (hal : '<' ∉ alt) (han : '\n' ∉ alt) :
    parseLinkTag (lc "<a href=\"" ++ ('#' :: f) ++ lc "\">" ++ alt ++ lc "</a>") =
      some ('#' :: f, alt) := by
  have hm := matchLinkAt_shape hf hfq hfn ha hal han
  have hshape : lc "<a href=\"" ++ ('#' :: f) ++ lc "\">" ++ alt ++ lc "</a>" =
      '<' :: (lc "a href=\"" ++ ('#' :: f) ++ lc "\">" ++ alt ++ lc "</a>") := by
    rw [show lc "<a href=\"" = '<' :: lc "a href=\"" from by decide]
    simp
  unfold parseLinkTag
  rw [hshape, List.length_cons]
  simp only [parseLinkF]
  rw [← hshape, hm]

/-- **C6**: a local link whose fragment is absent from the headers map is
left byte-for-byte unchanged (no error); a link whose fragment maps to a
(nonempty) anchor `A` is, in editor mode 2, replaced at every occurrence by
`<a href="{api}/spaces/{space}/pages/{pid}/{title with whitespace joined by
+}#A" title="alt">alt</a>`; the spec's concrete instance evaluates to
exactly the claimed output. -/
theorem processLinks_resolution :
    (∀ ev api space pid title hm html f alt, f ≠ [] → '"' ∉ f → '\n' ∉ f →
      alt ≠ [] → '<' ∉ alt → '\n' ∉ alt →
      aGet hm ('#' :: f) = none →
      processLinks ev api space pid title hm html
        [lc "<a href=\"" ++ ('#' :: f) ++ lc "\">" ++ alt ++ lc "</a>"] = some html) ∧
    (∀ api space pid title hm html f alt A, f ≠ [] → '"' ∉ f → '\n' ∉ f →
      alt ≠ [] → '<' ∉ alt → '\n' ∉ alt →
      aGet hm ('#' :: f) = some A → A ≠ [] →
      processLinks 2 api space pid title hm html
        [lc "<a href=\"" ++ ('#' :: f) ++ lc "\">" ++ alt ++ lc "</a>"] =
        some (replaceAll html
          (lc "<a href=\"" ++ ('#' :: f) ++ lc "\">" ++ alt ++ lc "</a>")
          (lc "<a href=\"" ++ (api ++ lc "/spaces/" ++ space ++ lc "/pages/" ++
            natDigits pid ++ lc "/" ++ joinPlus (pySplitWs title)) ++ lc "#" ++ A ++
            lc "\" title=\"" ++ alt ++ lc "\">" ++ alt ++ lc "</a>"))) ∧
    processLinks 2 (lc "https://example.com/wiki") (lc "TEST") 12345 (lc "Test Page")
      [(lc "#section-1", lc "Section-1")]
      (lc "<a href=\"#section-1\">Section 1</a>")
      [lc "<a href=\"#section-1\">Section 1</a>"] =
      some (lc "<a href=\"https://example.com/wiki/spaces/TEST/pages/12345/Test+Page#Section-1\" title=\"Section 1\">Section 1</a>") := by
  refine ⟨?_, ?_, by decide⟩
  · intro ev api space pid title hm html f alt hf hfq hfn ha hal han hget
    have hp := parseLinkTag_shape hf hfq hfn ha hal han
    generalize hL : lc "<a href=\"" ++ ('#' :: f) ++ lc "\">" ++ alt ++ lc "</a>" = L at hp ⊢
    simp [processLinks, plFold, plStep, hp, hget]
  · intro api space pid title hm html f alt A hf hfq hfn ha hal han hget hA
    have hp := parseLinkTag_shape hf hfq hfn ha hal han
    generalize hL : lc "<a href=\"" ++ ('#' :: f) ++ lc "\">" ++ alt ++ lc "</a>" = L at hp ⊢
    simp [processLinks, plFold, plStep, hp, hget, hA, linkReplacement, List.append_assoc]

theorem processLinks_resolution_witness :
    processLinks 2 (lc "a") (lc "S") 1 (lc "T") [(lc "#s", lc "S1")] (lc "zz")
      [lc "<a href=\"" ++ ('#' :: lc "q") ++ lc "\">" ++ lc "y" ++ lc "</a>"] =
      some (lc "zz") ∧
    processLinks 2 (lc "a") (lc "S") 1 (lc "T") [(lc "#s", lc "S1")] (lc "zz")
      [lc "<a href=\"" ++ ('#' :: lc "s") ++ lc "\">" ++ lc "y" ++ lc "</a>"] =
      some (replaceAll (lc "zz")
        (lc "<a href=\"" ++ ('#' :: lc "s") ++ lc "\">" ++ lc "y" ++ lc "</a>")
        (lc "<a href=\"" ++ (lc "a" ++ lc "/spaces/" ++ lc "S" ++ lc "/pages/" ++
          natDigits 1 ++ lc "/" ++ joinPlus (pySplitWs (lc "T"))) ++ lc "#" ++ lc "S1" ++
          lc "\" title=\"" ++ lc "y" ++ lc "\">" ++ lc "y" ++ lc "</a>")) :=
  ⟨processLinks_resolution.1 2 (lc "a") (lc "S") 1 (lc "T") [(lc "#s", lc "S1")]
      (lc "zz") (lc "q") (lc "y") (by decide) (by decide) (by decide) (by decide)
      (by decide) (by decide) (by decide),
    processLinks_resolution.2.1 (lc "a") (lc "S") 1 (lc "T") [(lc "#s", lc "S1")]
      (lc "zz") (lc "s") (lc "y") (lc "S1") (by decide) (by decide) (by decide)
      (by decide) (by decide) (by decide) (by decide) (by decide)⟩

/-! ## C8: second application of the pass sequence -/

/-- **C8**: when a string that is itself the output of the full ordered
pass sequence no longer contains any of the literal trigger patterns —
the `<p>[TOC]</p>` marker, the custom `<p>~X` / `X~</p>` delimiters,
blockquote tags, HTML comment delimiters (which also cover the doctoc
span), `<pre><code` blocks, and footnote definitions — applying the pass
sequence a second time leaves it unchanged. -/
theorem pipeline_idempotent_on_consumed :
    ∀ h0 h1, convertPasses false false h0 = some h1 →
    containsSub h1 (lc "<p>[TOC]</p>") = false →
    containsSub h1 (lc "<p>~") = false →
    containsSub h1 (lc "~</p>") = false →
    containsSub h1 (lc "<blockquote>") = false →
    containsSub h1 (lc "<!--") = false →
    containsSub h1 (lc "-->") = false →
    containsSub h1 (lc "<pre><code") = false →
    findRefs h1 = [] →
    convertPasses false false h1 = some h1 := by
  intro h0 h1 _ hTOC hTildeO hTildeC hBQ hCO hCC hPC hRefs
  have hnone : ∀ pat : List Char, containsSub h1 pat = false → firstOcc h1 pat = none := by
    intro pat hp
    unfold containsSub at hp
    cases ho : firstOcc h1 pat
    · rfl
    · rw [ho] at hp; cases hp
  have hinfp : ∀ pat sub : List Char, sub <:+: pat → containsSub h1 sub = false →
      firstOcc h1 pat = none := by
    intro pat sub hsp hp
    exact firstOcc_none_of_infix hsp (hnone sub hp)
  have h1toc : createTableOfContent h1 = h1 :=
    replaceAll_no (hnone _ hTOC)
  have hga : convertGithubAlerts h1 = h1 :=
    convertGithubAlerts_id (findBQs_nil (hnone _ hBQ))
  have hcust : ∀ (a b : String) (rep rep2 : List Char), lc "<p>~" <:+: lc a →
      lc "~</p>" <:+: lc b →
      replaceAll (replaceAll h1 (lc a) rep) (lc b) rep2 = h1 := by
    intro a b rep rep2 hia hib
    rw [replaceAll_no (hinfp _ _ hia hTildeO), replaceAll_no (hinfp _ _ hib hTildeC)]
  have hcs : customSubs h1 = h1 := by
    unfold customSubs
    rw [hcust "<p>~?" "?~</p>" infoTagP closeTagP ⟨[], lc "?", by decide⟩
        ⟨lc "?", [], by decide⟩,
      hcust "<p>~%" "%~</p>" warnTagP closeTagP ⟨[], lc "%", by decide⟩
        ⟨lc "%", [], by decide⟩,
      hcust "<p>~^" "^~</p>" succTagP closeTagP ⟨[], lc "^", by decide⟩
        ⟨lc "^", [], by decide⟩,
      hcust "<p>~$" "$~</p>" errTagP closeTagP ⟨[], lc "$", by decide⟩
        ⟨lc "$", [], by decide⟩,
      hcust "<p>~!" "!~</p>" adfOpenP adfCloseP ⟨[], lc "!", by decide⟩
        ⟨lc "!", [], by decide⟩]
  have hinfo : convertInfoMacros h1 = some h1 := by
    unfold convertInfoMacros
    rw [hga, hcs, findBQs_nil (hnone _ hBQ)]
    rw [show (match infoFold h1 [] with
      | none => none
      | some h6 => some (convertDoctoc h6)) = some (convertDoctoc h1) from rfl]
    rw [convertDoctoc_id (hinfp _ _ ⟨[], lc " START doctoc", by decide⟩ hCO)]
  have hcomm : convertCommentBlock h1 = h1 := by
    unfold convertCommentBlock
    rw [replaceAll_no (hnone _ hCO), replaceAll_no (hnone _ hCC)]
  have hcode : convertCodeBlock h1 = some h1 := by
    unfold convertCodeBlock
    rw [findCodeBlocks_nil (hnone _ hPC)]
    rfl
  have hrefs : processRefs h1 = some h1 := by
    unfold processRefs
    rw [hRefs]
    rfl
  unfold convertPasses
  rw [h1toc, hinfo]
  simp only [hcomm, hcode, Bool.false_eq_true, if_false, hrefs]

theorem pipeline_idempotent_on_consumed_witness :
    convertPasses false false (lc "<p>hello</p>") = some (lc "<p>hello</p>") :=
  pipeline_idempotent_on_consumed (lc "<p>hello</p>") (lc "<p>hello</p>")
    (by decide) (by decide) (by decide) (by decide) (by decide) (by decide)
    (by decide) (by decide) (by decide)

/-! ## C2: GitHub alert conversion -/

theorem isPre_cons2_false {p1 p2 x2 : Char} {ps s : List Char} (h : p2 ≠ x2) :
    isPre (p1 :: p2 :: ps) (p1 :: x2 :: s) = false := by
  simp [isPre, h]

theorem isPre_cons3_false {p1 p2 p3 x3 : Char} {ps s : List Char} (h : p3 ≠ x3) :
    isPre (p1 :: p2 :: p3 :: ps) (p1 :: p2 :: x3 :: s) = false := by
  simp [isPre, h]

theorem isPreCI_eq (p s : List Char) : isPreCI p s = isPre (lowerL p) (lowerL s) := by
  induction p generalizing s with
  | nil => rfl
  | cons a ps ih =>
    cases s with
    | nil => rfl
    | cons b t => simp [isPreCI, isPre, lowerL, ih]

/-- First occurrence of `</blockquote>` after a quote of shape
`<p> core </p> tail` with `core` and `tail` free of `<`. -/
theorem firstOcc_bqclose {core tail : List Char} (hc : '<' ∉ core) (ht : '<' ∉ tail) :
    firstOcc ((lc "<p>" ++ core ++ lc "</p>" ++ tail) ++ lc "</blockquote>")
      (lc "</blockquote>") = some (lc "<p>" ++ core ++ lc "</p>" ++ tail).length := by
  have hcl : lc "</blockquote>" = '<' :: '/' :: 'b' :: lc "lockquote>" := by decide
  have htail : ∀ c ∈ tail, c ≠ '<' := fun c hcm he => ht (by rwa [he] at hcm)
  have hcore : ∀ c ∈ core, c ≠ '<' := fun c hcm he => hc (by rwa [he] at hcm)
  have s0 : firstOcc (tail ++ lc "</blockquote>") (lc "</blockquote>") =
      some tail.length := by
    rw [hcl, firstOcc_append_head htail, ← hcl,
      show firstOcc (lc "</blockquote>") (lc "</blockquote>") = some 0 from by decide]
    simp
  have s1 : firstOcc ('<' :: '/' :: 'p' :: '>' :: (tail ++ lc "</blockquote>"))
      (lc "</blockquote>") = some (tail.length + 4) := by
    rw [firstOcc_cons_neg (by rw [hcl]; exact isPre_cons3_false (by decide)),
      firstOcc_cons_neg (by rw [hcl]; exact isPre_head_false (by decide) _ _),
      firstOcc_cons_neg (by rw [hcl]; exact isPre_head_false (by decide) _ _),
      firstOcc_cons_neg (by rw [hcl]; exact isPre_head_false (by decide) _ _),
      s0]
    simp [Nat.add_assoc]
  have s2 : firstOcc (core ++ ('<' :: '/' :: 'p' :: '>' :: (tail ++ lc "</blockquote>")))
      (lc "</blockquote>") = some (tail.length + 4 + core.length) := by
    rw [hcl, firstOcc_append_head hcore, ← hcl, s1]
    rfl
  have s3 : firstOcc ('<' :: 'p' :: '>' ::
      (core ++ ('<' :: '/' :: 'p' :: '>' :: (tail ++ lc "</blockquote>"))))
      (lc "</blockquote>") = some (tail.length + 4 + core.length + 3) := by
    rw [firstOcc_cons_neg (by rw [hcl]; exact isPre_cons2_false (by decide)),
      firstOcc_cons_neg (by rw [hcl]; exact isPre_head_false (by decide) _ _),
      firstOcc_cons_neg (by rw [hcl]; exact isPre_head_false (by decide) _ _),
      s2]
    simp [Nat.add_assoc]
  have e1 : (lc "<p>" ++ core ++ lc "</p>" ++ tail) ++ lc "</blockquote>" =
      '<' :: 'p' :: '>' ::
        (core ++ ('<' :: '/' :: 'p' :: '>' :: (tail ++ lc "</blockquote>"))) := by
    rw [show lc "<p>" = ['<', 'p', '>'] from by decide,
      show lc "</p>" = ['<', '/', 'p', '>'] from by decide]
    simp [List.append_assoc]
  rw [e1, s3]
  have hl1 : (lc "<p>").length = 3 := by decide
  have hl2 : (lc "</p>").length = 4 := by decide
  simp only [List.length_append, hl1, hl2]
  congr 1
  omega

theorem findBQsF_nil : ∀ n, findBQsF n [] = [] := by
  intro n
  cases n with
  | zero => rfl
  | succ m =>
    simp [findBQsF, bqStep_none (show firstOcc [] (lc "<blockquote>") = none from by decide)]

theorem findBQs_single {q : List Char}
    (hocc : firstOcc (q ++ lc "</blockquote>") (lc "</blockquote>") = some q.length) :
    findBQs (lc "<blockquote>" ++ q ++ lc "</blockquote>") = [q] := by
  have hop : firstOcc (lc "<blockquote>" ++ q ++ lc "</blockquote>")
      (lc "<blockquote>") = some 0 := by
    rw [List.append_assoc]
    exact firstOcc_self_append _ _ (by decide)
  have hdrop : (lc "<blockquote>" ++ q ++ lc "</blockquote>").drop (0 + 12) =
      q ++ lc "</blockquote>" := by
    rw [List.append_assoc, show (0 + 12 : Nat) = (lc "<blockquote>").length from by decide]
    exact List.drop_left _ _
  have htake : (q ++ lc "</blockquote>").take q.length = q := List.take_left _ _
  have hdrop2 : (q ++ lc "</blockquote>").drop (q.length + 13) = [] := by
    have hlen2 : (q ++ lc "</blockquote>").length = q.length + 13 := by
      have h2 : (lc "</blockquote>").length = 13 := by decide
      simp [List.length_append, h2]
    rw [List.drop_eq_nil_iff_le]
    omega
  have hstep : bqStep (lc "<blockquote>" ++ q ++ lc "</blockquote>") = some (q, []) := by
    unfold bqStep
    rw [hop]
    rw [show (0 + 12 : Nat) = 12 from rfl] at hdrop
    simp only [hdrop, hocc, htake, hdrop2]
  have hlen : (lc "<blockquote>" ++ q ++ lc "</blockquote>").length =
      (q.length + 24) + 1 := by
    have h1 : (lc "<blockquote>").length = 12 := by decide
    have h2 : (lc "</blockquote>").length = 13 := by decide
    simp only [List.length_append, h1, h2]
    omega
  unfold findBQs
  rw [hlen]
  show (match bqStep (lc "<blockquote>" ++ q ++ lc "</blockquote>") with
    | none => []
    | some (q2, rest2) => q2 :: findBQsF (q.length + 24) rest2) = [q]
  rw [hstep]
  show q :: findBQsF (q.length + 24) [] = [q]
  rw [findBQsF_nil]

theorem isPre_after5_false {a b : Char} {P Y : List Char} (h : a ≠ b) :
    isPre (lc "<p>[!" ++ a :: P) (lc "<p>[!" ++ b :: Y) = false := by
  rw [isPre_app]
  exact isPre_head_false h _ _

theorem isPre_seal (p Z : List Char) : isPre (p ++ [']']) (p ++ ']' :: Z) = true := by
  rw [isPre_app]
  simp [isPre]

theorem alert_take (ty t rest : List Char) (hlen : ty.length = t.length) :
    ((lc "<p>[!" ++ t ++ ']' :: rest).drop 5).take ty.length = t := by
  have hdrop5 : (lc "<p>[!" ++ t ++ ']' :: rest).drop 5 = t ++ ']' :: rest := by
    rw [List.append_assoc, show (5 : Nat) = (lc "<p>[!").length from by decide]
    exact List.drop_left _ _
  rw [hdrop5, hlen]
  exact List.take_left _ _

theorem alert_drop (ty t rest : List Char) (hlen : ty.length = t.length) :
    (lc "<p>[!" ++ t ++ ']' :: rest).drop (5 + ty.length + 1) = rest := by
  have hsplit : lc "<p>[!" ++ t ++ ']' :: rest = (lc "<p>[!" ++ t ++ [']']) ++ rest := by
    simp
  rw [hsplit, hlen, show 5 + t.length + 1 = (lc "<p>[!" ++ t ++ [']']).length from by
    have h5 : (lc "<p>[!").length = 5 := by decide
    simp [List.length_append, h5]
    omega]
  exact List.drop_left _ _

theorem ciFail {t rest w : List Char} (TY : List Char) {a b : Char} {P W2 : List Char}
    (hlow : lowerL (lc "<p>[!" ++ t ++ ']' :: rest) =
      lc "<p>[!" ++ w ++ ']' :: lowerL rest)
    (hTY : lowerL (lc "<p>[!" ++ TY ++ [']']) = lc "<p>[!" ++ a :: P)
    (hwsplit : w = b :: W2) (hab : a ≠ b) :
    isPreCI (lc "<p>[!" ++ TY ++ [']']) (lc "<p>[!" ++ t ++ ']' :: rest) = false := by
  rw [isPreCI_eq, hlow, hTY, hwsplit, List.append_assoc, List.cons_append]
  exact isPre_after5_false hab

theorem ciHit {t rest w : List Char} (TY : List Char)
    (hlow : lowerL (lc "<p>[!" ++ t ++ ']' :: rest) =
      lc "<p>[!" ++ w ++ ']' :: lowerL rest)
    (hTY : lowerL (lc "<p>[!" ++ TY ++ [']']) = (lc "<p>[!" ++ w) ++ [']']) :
    isPreCI (lc "<p>[!" ++ TY ++ [']']) (lc "<p>[!" ++ t ++ ']' :: rest) = true := by
  rw [isPreCI_eq, hlow, hTY]
  exact isPre_seal _ _

theorem tryTypes_hit {t rest w : List Char}
    (hw : w = lc "note" ∨ w = lc "tip" ∨ w = lc "important" ∨ w = lc "warning" ∨
      w = lc "caution")
    (hl : lowerL t = w) :
    tryTypes alertTypes (lc "<p>[!" ++ t ++ ']' :: rest) = some (t, rest) := by
  have hl2 : t.map lowerChar = w := hl
  have hlow : lowerL (lc "<p>[!" ++ t ++ ']' :: rest) =
      lc "<p>[!" ++ w ++ ']' :: lowerL rest := by
    unfold lowerL
    rw [List.map_append, List.map_append, List.map_cons]
    rw [show (lc "<p>[!").map lowerChar = lc "<p>[!" from by decide,
      show lowerChar ']' = ']' from by decide, hl2]
  have hlen : t.length = w.length := by
    rw [← hl2]
    simp
  rcases hw with rfl | rfl | rfl | rfl | rfl
  · have c1 := ciHit (lc "NOTE") hlow
      (show lowerL (lc "<p>[!" ++ lc "NOTE" ++ [']']) =
        (lc "<p>[!" ++ lc "note") ++ [']'] from by decide)
    have hlen2 : (lc "NOTE").length = t.length := by rw [hlen]; decide
    simp only [tryTypes, alertTypes, c1, if_true]
    rw [alert_take _ _ _ hlen2, alert_drop _ _ _ hlen2]
  · have c1 := ciFail (lc "NOTE") hlow
      (show lowerL (lc "<p>[!" ++ lc "NOTE" ++ [']']) =
        lc "<p>[!" ++ 'n' :: lc "ote]" from by decide)
      (show (lc "tip" : List Char) = 't' :: lc "ip" from by decide) (by decide)
    have c2 := ciHit (lc "TIP") hlow
      (show lowerL (lc "<p>[!" ++ lc "TIP" ++ [']']) =
        (lc "<p>[!" ++ lc "tip") ++ [']'] from by decide)
    have hlen2 : (lc "TIP").length = t.length := by rw [hlen]; decide
    simp only [tryTypes, alertTypes, c1, c2, Bool.false_eq_true, if_false, if_true]
    rw [alert_take _ _ _ hlen2, alert_drop _ _ _ hlen2]
  · have c1 := ciFail (lc "NOTE") hlow
      (show lowerL (lc "<p>[!" ++ lc "NOTE" ++ [']']) =
        lc "<p>[!" ++ 'n' :: lc "ote]" from by decide)
      (show (lc "important" : List Char) = 'i' :: lc "mportant" from by decide) (by decide)
    have c2 := ciFail (lc "TIP") hlow
      (show lowerL (lc "<p>[!" ++ lc "TIP" ++ [']']) =
        lc "<p>[!" ++ 't' :: lc "ip]" from by decide)
      (show (lc "important" : List Char) = 'i' :: lc "mportant" from by decide) (by decide)
    have c3 := ciHit (lc "IMPORTANT") hlow
      (show lowerL (lc "<p>[!" ++ lc "IMPORTANT" ++ [']']) =
        (lc "<p>[!" ++ lc "important") ++ [']'] from by decide)
    have hlen2 : (lc "IMPORTANT").length = t.length := by rw [hlen]; decide
    simp only [tryTypes, alertTypes, c1, c2, c3, Bool.false_eq_true, if_false, if_true]
    rw [alert_take _ _ _ hlen2, alert_drop _ _ _ hlen2]
  · have c1 := ciFail (lc "NOTE") hlow
      (show lowerL (lc "<p>[!" ++ lc "NOTE" ++ [']']) =
        lc "<p>[!" ++ 'n' :: lc "ote]" from by decide)
      (show (lc "warning" : List Char) = 'w' :: lc "arning" from by decide) (by decide)
    have c2 := ciFail (lc "TIP") hlow
      (show lowerL (lc "<p>[!" ++ lc "TIP" ++ [']']) =
        lc "<p>[!" ++ 't' :: lc "ip]" from by decide)
      (show (lc "warning" : List Char) = 'w' :: lc "arning" from by decide) (by decide)
    have c3 := ciFail (lc "IMPORTANT") hlow
      (show lowerL (lc "<p>[!" ++ lc "IMPORTANT" ++ [']']) =
        lc "<p>[!" ++ 'i' :: lc "mportant]" from by decide)
      (show (lc "warning" : List Char) = 'w' :: lc "arning" from by decide) (by decide)
    have c4 := ciHit (lc "WARNING") hlow
      (show lowerL (lc "<p>[!" ++ lc "WARNING" ++ [']']) =
        (lc "<p>[!" ++ lc "warning") ++ [']'] from by decide)
    have hlen2 : (lc "WARNING").length = t.length := by rw [hlen]; decide
    simp only [tryTypes, alertTypes, c1, c2, c3, c4, Bool.false_eq_true, if_false, if_true]
    rw [alert_take _ _ _ hlen2, alert_drop _ _ _ hlen2]
  · have c1 := ciFail (lc "NOTE") hlow
      (show lowerL (lc "<p>[!" ++ lc "NOTE" ++ [']']) =
        lc "<p>[!" ++ 'n' :: lc "ote]" from by decide)
      (show (lc "caution" : List Char) = 'c' :: lc "aution" from by decide) (by decide)
    have c2 := ciFail (lc "TIP") hlow
      (show lowerL (lc "<p>[!" ++ lc "TIP" ++ [']']) =
        lc "<p>[!" ++ 't' :: lc "ip]" from by decide)
      (show (lc "caution" : List Char) = 'c' :: lc "aution" from by decide) (by decide)
    have c3 := ciFail (lc "IMPORTANT") hlow
      (show lowerL (lc "<p>[!" ++ lc "IMPORTANT" ++ [']']) =
        lc "<p>[!" ++ 'i' :: lc "mportant]" from by decide)
      (show (lc "caution" : List Char) = 'c' :: lc "aution" from by decide) (by decide)
    have c4 := ciFail (lc "WARNING") hlow
      (show lowerL (lc "<p>[!" ++ lc "WARNING" ++ [']']) =
        lc "<p>[!" ++ 'w' :: lc "arning]" from by decide)
      (show (lc "caution" : List Char) = 'c' :: lc "aution" from by decide) (by decide)
    have c5 := ciHit (lc "CAUTION") hlow
      (show lowerL (lc "<p>[!" ++ lc "CAUTION" ++ [']']) =
        (lc "<p>[!" ++ lc "caution") ++ [']'] from by decide)
    have hlen2 : (lc "CAUTION").length = t.length := by rw [hlen]; decide
    simp only [tryTypes, alertTypes, c1, c2, c3, c4, c5, Bool.false_eq_true, if_false,
      if_true]
    rw [alert_take _ _ _ hlen2, alert_drop _ _ _ hlen2]

theorem parseAlert_shape {t w u mid tl : List Char}
    (hw : w = lc "note" ∨ w = lc "tip" ∨ w = lc "important" ∨ w = lc "warning" ∨
      w = lc "caution")
    (hl : lowerL t = w) (hu : upperL t = u) (hmid : '<' ∉ mid) :
    parseAlert ((lc "<p>[!" ++ t) ++ ']' :: (mid ++ (lc "</p>" ++ tl))) =
      some ⟨u, pyStrip mid, pyStrip tl⟩ := by
  have hQsplit : (lc "<p>[!" ++ t) ++ ']' :: (mid ++ (lc "</p>" ++ tl)) =
      ('<' :: (lc "p>[!" ++ (t ++ ']' :: (mid ++ lc "</p")))) ++ ('>' :: tl) := by
    rw [show lc "<p>[!" = '<' :: lc "p>[!" from by decide,
      show lc "</p>" = lc "</p" ++ ['>'] from by decide]
    simp
  have hstrip : pyStrip ((lc "<p>[!" ++ t) ++ ']' :: (mid ++ (lc "</p>" ++ tl))) =
      ('<' :: (lc "p>[!" ++ (t ++ ']' :: (mid ++ lc "</p")))) ++ pyRStrip ('>' :: tl) := by
    rw [hQsplit]
    exact strip_keeps_prefix (by decide) ⟨'>', by simp, by decide⟩
  have hpre : isPre (lc "<p>[!")
      (pyStrip ((lc "<p>[!" ++ t) ++ ']' :: (mid ++ (lc "</p>" ++ tl)))) = true := by
    rw [hstrip,
      show ('<' :: (lc "p>[!" ++ (t ++ ']' :: (mid ++ lc "</p")))) ++
          pyRStrip ('>' :: tl) =
        lc "<p>[!" ++ ((t ++ ']' :: (mid ++ lc "</p")) ++ pyRStrip ('>' :: tl)) from by
        rw [show lc "<p>[!" = '<' :: lc "p>[!" from by decide]
        simp]
    exact isPre_append _ _
  have htt : tryTypes alertTypes
      ((lc "<p>[!" ++ t) ++ ']' :: (mid ++ (lc "</p>" ++ tl))) =
      some (t, mid ++ (lc "</p>" ++ tl)) := tryTypes_hit hw hl
  have hQcons : (lc "<p>[!" ++ t) ++ ']' :: (mid ++ (lc "</p>" ++ tl)) =
      '<' :: (lc "p>[!" ++ (t ++ ']' :: (mid ++ (lc "</p>" ++ tl)))) := by
    rw [show lc "<p>[!" = '<' :: lc "p>[!" from by decide]
    simp
  have hscan : alertScan ((lc "<p>[!" ++ t) ++ ']' :: (mid ++ (lc "</p>" ++ tl))) =
      some (t, mid ++ (lc "</p>" ++ tl)) := by
    rw [hQcons] at htt
    rw [hQcons]
    simp only [alertScan]
    rw [htt]
  have hmid2 : ∀ c ∈ mid, c ≠ '<' := fun c hc he => hmid (by rwa [he] at hc)
  have h0 : firstOcc (lc "</p>" ++ tl) (lc "</p>") = some 0 :=
    firstOcc_self_append _ _ (by decide)
  have hocc : firstOcc (mid ++ (lc "</p>" ++ tl)) (lc "</p>") = some mid.length := by
    rw [show lc "</p>" = '<' :: lc "/p>" from by decide] at h0 ⊢
    rw [firstOcc_append_head hmid2, h0]
    simp
  have htake : (mid ++ (lc "</p>" ++ tl)).take mid.length = mid := List.take_left _ _
  have hdropR : (mid ++ (lc "</p>" ++ tl)).drop (mid.length + 4) = tl := by
    rw [← List.append_assoc,
      show mid.length + 4 = (mid ++ lc "</p>").length from by
        have h4 : (lc "</p>").length = 4 := by decide
        simp [List.length_append, h4]]
    exact List.drop_left _ _
  unfold parseAlert
  rw [if_pos hpre, hscan]
  show (match firstOcc (mid ++ (lc "</p>" ++ tl)) (lc "</p>") with
    | none => none
    | some k =>
      some (AlertInfo.mk (upperL t) (pyStrip ((mid ++ (lc "</p>" ++ tl)).take k))
        (pyStrip ((mid ++ (lc "</p>" ++ tl)).drop (k + 4))))) =
    some (AlertInfo.mk u (pyStrip mid) (pyStrip tl))
  rw [hocc]
  show some (AlertInfo.mk (upperL t)
      (pyStrip ((mid ++ (lc "</p>" ++ tl)).take mid.length))
      (pyStrip ((mid ++ (lc "</p>" ++ tl)).drop (mid.length + 4)))) =
    some (AlertInfo.mk u (pyStrip mid) (pyStrip tl))
  rw [htake, hdropR, hu]

theorem gaGeneral {t w u mid tl openT closeT : List Char}
    (hw : w = lc "note" ∨ w = lc "tip" ∨ w = lc "important" ∨ w = lc "warning" ∨
      w = lc "caution")
    (hl : lowerL t = w) (hu : upperL t = u)
    (htags : alertTags u = some (openT, closeT))
    (hmid : '<' ∉ mid) (htail : '<' ∉ tl) :
    convertGithubAlerts
        (lc "<blockquote>" ++ ((lc "<p>[!" ++ t) ++ ']' :: (mid ++ (lc "</p>" ++ tl))) ++
          lc "</blockquote>") =
      openT ++ buildAlertContent (pyStrip mid) (pyStrip tl) ++ closeT := by
  have hlt : '<' ∉ t := by
    intro hmem
    have h1 : lowerChar '<' ∈ t.map lowerChar := List.mem_map_of_mem lowerChar hmem
    have h2 : t.map lowerChar = w := hl
    rw [h2, show lowerChar '<' = '<' from by decide] at h1
    rcases hw with rfl | rfl | rfl | rfl | rfl <;> exact absurd h1 (by decide)
  have hcore : '<' ∉ ('[' :: '!' :: (t ++ ']' :: mid)) := by
    intro h
    simp only [List.mem_cons, List.mem_append] at h
    rcases h with h | h | h | h | h
    · exact absurd h (by decide)
    · exact absurd h (by decide)
    · exact hlt h
    · exact absurd h (by decide)
    · exact hmid h
  have hQform : (lc "<p>[!" ++ t) ++ ']' :: (mid ++ (lc "</p>" ++ tl)) =
      lc "<p>" ++ ('[' :: '!' :: (t ++ ']' :: mid)) ++ lc "</p>" ++ tl := by
    rw [show lc "<p>[!" = lc "<p>" ++ ['[', '!'] from by decide]
    simp
  have hocc : firstOcc
      (((lc "<p>[!" ++ t) ++ ']' :: (mid ++ (lc "</p>" ++ tl))) ++ lc "</blockquote>")
      (lc "</blockquote>") =
      some ((lc "<p>[!" ++ t) ++ ']' :: (mid ++ (lc "</p>" ++ tl))).length := by
    rw [hQform]
    exact firstOcc_bqclose hcore htail
  have hfind := findBQs_single hocc
  have hparse : parseAlert ((lc "<p>[!" ++ t) ++ ']' :: (mid ++ (lc "</p>" ++ tl))) =
      some (AlertInfo.mk u (pyStrip mid) (pyStrip tl)) := parseAlert_shape hw hl hu hmid
  have hmac : createAlertMacro ⟨u, pyStrip mid, pyStrip tl⟩ =
      some (openT ++ buildAlertContent (pyStrip mid) (pyStrip tl) ++ closeT) := by
    simp only [createAlertMacro, htags]
  have hne : lc "<blockquote>" ++ ((lc "<p>[!" ++ t) ++ ']' :: (mid ++ (lc "</p>" ++ tl))) ++
      lc "</blockquote>" ≠ [] := by
    intro h
    rw [List.append_eq_nil] at h
    exact absurd h.2 (by decide)
  unfold convertGithubAlerts
  rw [hfind, List.foldl_cons, List.foldl_nil]
  simp only [hparse, hmac]
  exact replaceAll_exact hne

/-- **C2**: every blockquote whose first paragraph opens with a marker
`[!TYPE]`, `TYPE` case-insensitively among NOTE, TIP, IMPORTANT, WARNING,
CAUTION, is replaced as a whole by the macro mapped NOTE→info, TIP→tip,
IMPORTANT→adf panel, WARNING→note, CAUTION→warning, whose body is the
stripped headline wrapped in a paragraph (omitted when empty) followed by
the remaining stripped content (omitted when empty; an empty paragraph when
both are empty — `buildAlertContent`); in particular
`<blockquote><p>[!WARNING] text</p></blockquote>` becomes the
`ac:name="note"` macro wrapping `<p>text</p>`. -/
theorem githubAlert_mapping {t w u mid tl openT closeT : List Char}
    (hpair : (w, u, openT, closeT) ∈
      [(lc "note", lc "NOTE", gInfoTag, gClose),
       (lc "tip", lc "TIP", gTipTag, gClose),
       (lc "important", lc "IMPORTANT", adfOpenG, adfCloseG),
       (lc "warning", lc "WARNING", gWarnTag, gClose),
       (lc "caution", lc "CAUTION", gErrTag, gClose)])
    (hl : lowerL t = w) (hu : upperL t = u)
    (hmid : '<' ∉ mid) (htail : '<' ∉ tl) :
    convertGithubAlerts
        (lc "<blockquote>" ++ ((lc "<p>[!" ++ t) ++ ']' :: (mid ++ (lc "</p>" ++ tl))) ++
          lc "</blockquote>") =
      openT ++ buildAlertContent (pyStrip mid) (pyStrip tl) ++ closeT ∧
    convertGithubAlerts (lc "<blockquote><p>[!WARNING] text</p></blockquote>") =
      gWarnTag ++ lc "<p>text</p>" ++ gClose := by
  constructor
  · simp only [List.mem_cons, List.not_mem_nil, or_false, Prod.mk.injEq] at hpair
    rcases hpair with ⟨rfl, rfl, rfl, rfl⟩ | ⟨rfl, rfl, rfl, rfl⟩ | ⟨rfl, rfl, rfl, rfl⟩ |
      ⟨rfl, rfl, rfl, rfl⟩ | ⟨rfl, rfl, rfl, rfl⟩
    · exact gaGeneral (Or.inl rfl) hl hu (by decide) hmid htail
    · exact gaGeneral (Or.inr (Or.inl rfl)) hl hu (by decide) hmid htail
    · exact gaGeneral (Or.inr (Or.inr (Or.inl rfl))) hl hu (by decide) hmid htail
    · exact gaGeneral (Or.inr (Or.inr (Or.inr (Or.inl rfl)))) hl hu (by decide) hmid htail
    · exact gaGeneral (Or.inr (Or.inr (Or.inr (Or.inr rfl)))) hl hu (by decide) hmid htail
  · decide

theorem githubAlert_mapping_witness :
    convertGithubAlerts
        (lc "<blockquote>" ++ ((lc "<p>[!" ++ lc "WARNING") ++ ']' ::
          (lc " text" ++ (lc "</p>" ++ lc ""))) ++ lc "</blockquote>") =
      gWarnTag ++ buildAlertContent (pyStrip (lc " text")) (pyStrip (lc "")) ++ gClose ∧
    convertGithubAlerts (lc "<blockquote><p>[!WARNING] text</p></blockquote>") =
      gWarnTag ++ lc "<p>text</p>" ++ gClose :=
  @githubAlert_mapping (lc "WARNING") (lc "warning") (lc "WARNING") (lc " text") (lc "")
    gWarnTag gClose (by decide) (by decide) (by decide) (by decide) (by decide)

/-- **C4 counterexample**: a blockquote labelled `Note:` is not converted
to the info macro — the heuristic pass maps Note to the ADF panel
(converter.py lines 385-389), which differs from the info-macro output. -/
theorem heuristic_note_not_info :
    convertInfoMacros (lc "<blockquote><p>Note: text</p></blockquote>") =
      some (adfOpenP ++ lc "Text" ++ adfCloseP) ∧
    adfOpenP ++ lc "Text" ++ adfCloseP ≠ infoTagP ++ lc "Text" ++ closeTagP := by
  exact ⟨by decide, by decide⟩

/-- **C4 amended**: the heuristic pass maps Note→ADF panel, Warning→note
macro, Success→tip, Error→warning, and an unlabeled blockquote to the info
macro, stripping the label (plain and em-wrapped variants) and uppercasing
the first remaining character; but the label stripping is case-sensitive
(`strip_type` passes `re.IGNORECASE` as the count argument), so a
lowercase `note:` label is detected case-insensitively yet not stripped. -/
theorem heuristic_label_mapping :
    convertInfoMacros (lc "<blockquote><p>Note: text</p></blockquote>") =
      some (adfOpenP ++ lc "Text" ++ adfCloseP) ∧
    convertInfoMacros (lc "<blockquote><p>Warning: text</p></blockquote>") =
      some (warnTagP ++ lc "Text" ++ closeTagP) ∧
    convertInfoMacros (lc "<blockquote><p>Success: text</p></blockquote>") =
      some (succTagP ++ lc "Text" ++ closeTagP) ∧
    convertInfoMacros (lc "<blockquote><p>Error: text</p></blockquote>") =
      some (errTagP ++ lc "Text" ++ closeTagP) ∧
    convertInfoMacros (lc "<blockquote><p><em>Warning:</em> text</p></blockquote>") =
      some (warnTagP ++ lc "Text" ++ closeTagP) ∧
    convertInfoMacros (lc "<blockquote><p>note: hi</p></blockquote>") =
      some (adfOpenP ++ lc "Note: hi" ++ adfCloseP) ∧
    convertInfoMacros (lc "<blockquote><p>just a quote</p></blockquote>") =
      some (infoTagP ++ lc "just a quote" ++ closeTagP) :=
  ⟨by decide, by decide, by decide, by decide, by decide, by decide, by decide⟩

end MdToConf
